import Mathlib

/-!
Verification of the digital-ocean proxy's normalization layer (src/app.py).

The embedding models JSON values as they appear after Python's `json` parsing:
`null`/`None`, booleans, integers, floats (represented by an exact decimal
mantissa/exponent pair, see `JValue.fl`), strings, lists and dicts.  Dicts are
association lists in insertion order, matching Python dict semantics for the
unique-key dictionaries produced by JSON parsing.
-/

/-- A JSON value as produced by Python's `json.loads` / Flask's `get_json`.
`fl m e` denotes the float with exact decimal value `m / 10 ^ e`; Python
floats coming from JSON literals are decimal literals, carried here exactly. -/
inductive JValue where
  | null
  | bool (b : Bool)
  | int (n : Int)
  | fl (mant : Int) (exp : Nat)
  | str (s : String)
  | arr (items : List JValue)
  | obj (fields : List (String × JValue))

/-- First-match lookup in a dict, i.e. Python `d[k]` / `d.get(k)` returning
`none` when the key is absent. -/
def dictGet : List (String × JValue) → String → Option JValue
  | [], _ => none
  | (k', v) :: rest, k => if k' = k then some v else dictGet rest k

/-- Python `d.get(k, default)`. -/
def dictGetD (d : List (String × JValue)) (k : String) (default : JValue) : JValue :=
  (dictGet d k).getD default

/-- Python `k in d`. -/
def dictHas (d : List (String × JValue)) (k : String) : Bool :=
  (dictGet d k).isSome

/-- Python `d[k] = v`: replace the value of an existing key in place,
otherwise append the new binding at the end (dict insertion order). -/
def dictSet : List (String × JValue) → String → JValue → List (String × JValue)
  | [], k, v => [(k, v)]
  | (k', v') :: rest, k, v =>
      if k' = k then (k, v) :: rest else (k', v') :: dictSet rest k v

/-- Python truthiness of a value (`if x:`): `None`, `False`, numeric zero and
empty containers/strings are falsy, everything else truthy. -/
def pyTruthy : JValue → Bool
  | .null => false
  | .bool b => b
  | .int n => n ≠ 0
  | .fl m _ => m ≠ 0
  | .str s => s ≠ ""
  | .arr items => !items.isEmpty
  | .obj fields => !fields.isEmpty

/-- Python `x or y`: `x` if truthy, else `y`. -/
def pyOr (x y : JValue) : JValue := if pyTruthy x then x else y

/-- The decimal digit character for `n < 10`. -/
def digitChar : Nat → Char
  | 0 => '0' | 1 => '1' | 2 => '2' | 3 => '3' | 4 => '4'
  | 5 => '5' | 6 => '6' | 7 => '7' | 8 => '8' | _ => '9'

/-- Decimal digits of a natural number, most significant first. -/
def natDigits (n : Nat) : List Char :=
  if n < 10 then [digitChar n]
  else natDigits (n / 10) ++ [digitChar (n % 10)]
  decreasing_by exact Nat.div_lt_self (by omega) (by omega)

/-- Read a run of decimal digit characters back into a natural number. -/
def digitsToNat (ds : List Char) : Nat :=
  ds.foldl (fun a c => 10 * a + (c.toNat - 48)) 0

/-- Decimal rendering of an integer, as Python prints `int` values. -/
def intChars (n : Int) : List Char :=
  if n < 0 then '-' :: natDigits n.natAbs else natDigits n.natAbs

/-- Digits of `a / 10 ^ e` for `e > 0`: the decimal digit run of `a`,
zero-padded to more than `e` digits, with the point inserted before the last
`e` digits.  Python prints a float as the shortest decimal literal that
round-trips through IEEE 754; the embedding carries the decimal
mantissa/exponent exactly and prints it verbatim (`e = 0` gets the trailing
`.0` Python shows for integral floats). -/
def fracChars (a e : Nat) : List Char :=
  let ds := natDigits a
  let ds := if ds.length ≤ e then List.replicate (e + 1 - ds.length) '0' ++ ds else ds
  ds.take (ds.length - e) ++ '.' :: ds.drop (ds.length - e)

/-- Decimal rendering of the float `m / 10 ^ e`, sign then digits. -/
def floatChars (m : Int) (e : Nat) : List Char :=
  (if m < 0 then ['-'] else [])
    ++ (if e = 0 then natDigits m.natAbs ++ ['.', '0'] else fracChars m.natAbs e)

/-- Lowercase hexadecimal digit. -/
def hexChar (n : Nat) : Char :=
  if n < 10 then digitChar n
  else if n = 10 then 'a' else if n = 11 then 'b' else if n = 12 then 'c'
  else if n = 13 then 'd' else if n = 14 then 'e' else 'f'

/-- Four lowercase hex digits of `n < 0x10000`, as in a JSON `\uXXXX` escape. -/
def hex4 (n : Nat) : List Char :=
  [hexChar (n / 4096 % 16), hexChar (n / 256 % 16), hexChar (n / 16 % 16), hexChar (n % 16)]

/-- How Python's `json.dumps` (with its default `ensure_ascii=True`) renders one
character inside a string literal: `"` and `\` and the named control escapes
get two-character escapes, every other character outside `0x20..0x7e` becomes
`\uXXXX` (a surrogate pair for supplementary-plane characters), and printable
ASCII is emitted verbatim. -/
def escapeChar (c : Char) : List Char :=
  if c = '"' then ['\\', '"']
  else if c = '\\' then ['\\', '\\']
  else if c = '\n' then ['\\', 'n']
  else if c = '\r' then ['\\', 'r']
  else if c = '\t' then ['\\', 't']
  else if c = '\x08' then ['\\', 'b']
  else if c = '\x0c' then ['\\', 'f']
  else if c.toNat < 32 ∨ 127 ≤ c.toNat then
    if c.toNat < 65536 then '\\' :: 'u' :: hex4 c.toNat
    else
      let u := c.toNat - 65536
      ('\\' :: 'u' :: hex4 (55296 + u / 1024)) ++ ('\\' :: 'u' :: hex4 (56320 + u % 1024))
  else [c]

/-- `escapeChar` mapped over a character list. -/
def escapeList : List Char → List Char
  | [] => []
  | c :: cs => escapeChar c ++ escapeList cs

mutual

/-- The characters `json.dumps` (default separators `", "` and `": "`,
`ensure_ascii=True`) emits for a value. -/
def jdump : JValue → List Char
  | .null => 'n' :: ['u', 'l', 'l']
  | .bool true => 't' :: ['r', 'u', 'e']
  | .bool false => 'f' :: ['a', 'l', 's', 'e']
  | .int n => intChars n
  | .fl m e => floatChars m e
  | .str s => '"' :: escapeList s.data ++ ['"']
  | .arr [] => ['[', ']']
  | .arr (x :: xs) => '[' :: jdumpElems x xs ++ [']']
  | .obj [] => ['{', '}']
  | .obj (f :: fs) => '{' :: jdumpFields f fs ++ ['}']
termination_by v => sizeOf v
decreasing_by all_goals (simp_wf; try omega)

/-- Array elements, separated by `", "`. -/
def jdumpElems : JValue → List JValue → List Char
  | x, [] => jdump x
  | x, y :: ys => jdump x ++ ',' :: ' ' :: jdumpElems y ys
termination_by x xs => sizeOf x + sizeOf xs
decreasing_by all_goals (simp_wf; try omega)

/-- Object members, `"key": value` separated by `", "`. -/
def jdumpFields : String × JValue → List (String × JValue) → List Char
  | (k, v), [] => '"' :: escapeList k.data ++ '"' :: ':' :: ' ' :: jdump v
  | (k, v), f :: fs =>
      ('"' :: escapeList k.data ++ '"' :: ':' :: ' ' :: jdump v) ++ ',' :: ' ' :: jdumpFields f fs
termination_by f fs => sizeOf f + sizeOf fs
decreasing_by all_goals (simp_wf; try omega)

end

/-- Python `json.dumps(v)` with its default arguments. -/
def jsonDumps (v : JValue) : String := String.mk (jdump v)

mutual

/-- The characters `json.dumps(v, indent=2)` emits at surrounding indent
`ind`: containers break after the opening bracket, members are indented two
further spaces and separated by `",\n"`, and the closing bracket returns to
the surrounding indent; scalars render as in the compact form. -/
def jdumpInd (ind : Nat) : JValue → List Char
  | .arr [] => ['[', ']']
  | .arr (x :: xs) =>
      '[' :: '\n' :: List.replicate (ind + 2) ' ' ++ jdumpIndElems (ind + 2) x xs
        ++ '\n' :: List.replicate ind ' ' ++ [']']
  | .obj [] => ['{', '}']
  | .obj (f :: fs) =>
      '{' :: '\n' :: List.replicate (ind + 2) ' ' ++ jdumpIndFields (ind + 2) f fs
        ++ '\n' :: List.replicate ind ' ' ++ ['}']
  | v => jdump v
termination_by v => sizeOf v
decreasing_by all_goals (simp_wf; try omega)

/-- Indented array elements, separated by `",\n"` plus the indent. -/
def jdumpIndElems (ind : Nat) : JValue → List JValue → List Char
  | x, [] => jdumpInd ind x
  | x, y :: ys => jdumpInd ind x ++ ',' :: '\n' :: List.replicate ind ' ' ++ jdumpIndElems ind y ys
termination_by x xs => sizeOf x + sizeOf xs
decreasing_by all_goals (simp_wf; try omega)

/-- Indented object members. -/
def jdumpIndFields (ind : Nat) : String × JValue → List (String × JValue) → List Char
  | (k, v), [] => '"' :: escapeList k.data ++ '"' :: ':' :: ' ' :: jdumpInd ind v
  | (k, v), f :: fs =>
      ('"' :: escapeList k.data ++ '"' :: ':' :: ' ' :: jdumpInd ind v)
        ++ ',' :: '\n' :: List.replicate ind ' ' ++ jdumpIndFields ind f fs
termination_by f fs => sizeOf f + sizeOf fs
decreasing_by all_goals (simp_wf; try omega)

end

/-- Python `json.dumps(v, indent=2)`. -/
def jsonDumpsIndent2 (v : JValue) : String := String.mk (jdumpInd 0 v)

/-- A single-quote character (used by Python `repr`). -/
def squote : Char := Char.ofNat 39

mutual

/-- Python `repr` of a JSON-shaped value, as used by `str()` on containers.
String quoting is modelled with plain single quotes; `repr`'s escaping of
quotes and control characters inside the string is elided (no claim touches
the rendering of containers or exercises such strings). -/
def pyRepr : JValue → List Char
  | .null => ['N', 'o', 'n', 'e']
  | .bool true => ['T', 'r', 'u', 'e']
  | .bool false => ['F', 'a', 'l', 's', 'e']
  | .int n => intChars n
  | .fl m e => floatChars m e
  | .str s => squote :: s.data ++ [squote]
  | .arr [] => ['[', ']']
  | .arr (x :: xs) => '[' :: pyReprElems x xs ++ [']']
  | .obj [] => ['{', '}']
  | .obj (f :: fs) => '{' :: pyReprFields f fs ++ ['}']
termination_by v => sizeOf v
decreasing_by all_goals (simp_wf; try omega)

/-- `repr` of list elements, separated by `", "`. -/
def pyReprElems : JValue → List JValue → List Char
  | x, [] => pyRepr x
  | x, y :: ys => pyRepr x ++ ',' :: ' ' :: pyReprElems y ys
termination_by x xs => sizeOf x + sizeOf xs
decreasing_by all_goals (simp_wf; try omega)

/-- `repr` of dict members, `'key': value` separated by `", "`. -/
def pyReprFields : String × JValue → List (String × JValue) → List Char
  | (k, v), [] => squote :: k.data ++ squote :: ':' :: ' ' :: pyRepr v
  | (k, v), f :: fs =>
      (squote :: k.data ++ squote :: ':' :: ' ' :: pyRepr v) ++ ',' :: ' ' :: pyReprFields f fs
termination_by f fs => sizeOf f + sizeOf fs
decreasing_by all_goals (simp_wf; try omega)

end

/-- Python `str(v)`: strings render as themselves, `None`/`True`/`False` by
name, numbers in decimal, containers via `repr`. -/
def pyStr : JValue → String
  | .str s => s
  | v => String.mk (pyRepr v)

/-- Python `sep.join(parts)` over a list of values: raises `TypeError` when
any element is not a string. -/
def pyJoinVals (sep : String) : List JValue → Except String String
  | [] => .ok ""
  | [.str s] => .ok s
  | .str s :: rest => (pyJoinVals sep rest).map (fun r => s ++ sep ++ r)
  | _ => .error "TypeError: sequence item: expected str instance"

/-- Map a fallible function over a list, propagating the first raised error
(Python `for` loop appending to an accumulator). -/
def mapExcept (f : JValue → Except String JValue) : List JValue → Except String (List JValue)
  | [] => .ok []
  | x :: xs =>
      match f x with
      | .error e => .error e
      | .ok y => (mapExcept f xs).map (fun ys => y :: ys)

/-- The inline rendering `transform_tool_use_to_text` produces for a
`tool_use` block (src/app.py lines 22-25): the f-string
`[Tool Use: <name> (id: <id>)\nInput: <json.dumps(input, indent=2)>]`. -/
def toolUseRender (fields : List (String × JValue)) : String :=
  "[Tool Use: " ++ pyStr (dictGetD fields "name" (.str "unknown_tool"))
    ++ " (id: " ++ pyStr (dictGetD fields "id" (.str "")) ++ ")\nInput: "
    ++ jsonDumpsIndent2 (dictGetD fields "input" (.obj [])) ++ "]"

/-- The value one iteration of the block loop in `transform_tool_use_to_text`
appends to `text_parts` (src/app.py lines 20-31).  Only a `text` block can
contribute a non-string value (its raw `text` field). -/
def textCollapsePart (item : JValue) : JValue :=
  match item with
  | .obj fields =>
      match dictGetD fields "type" .null with
      | .str t =>
          if t = "tool_use" then .str (toolUseRender fields)
          else if t = "text" then dictGetD fields "text" (.str "")
          else .str (jsonDumps item)
      | _ => .str (jsonDumps item)
  | item => .str (pyStr item)

/-- Embeds `transform_tool_use_to_text` (src/app.py lines 13-33).  A string
is returned unchanged; a list is collapsed to the `"\n\n"`-join of its
per-block parts (the join raises `TypeError` if a `text` block carried a
non-string `text` value); any other value becomes `str(content)`. -/
def transform_tool_use_to_text (content : JValue) : Except String JValue :=
  match content with
  | .str s => .ok (.str s)
  | .arr items => (pyJoinVals "\n\n" (items.map textCollapsePart)).map JValue.str
  | content => .ok (.str (pyStr content))

/-- Python `'content' in msg` when `msg` is a list: membership by `==`. -/
def listHasContentStr (xs : List JValue) : Bool :=
  xs.any fun x => match x with
    | .str s => s = "content"
    | _ => false

/-- One iteration of `transform_messages` (src/app.py lines 38-42):
`msg.copy()`, then replace `content` (when present) by its text collapse.
A non-dict message raises: strings have no `.copy` (`AttributeError`); a
list copies, and then `new_msg['content'] = ...` raises `TypeError` when
`'content' in new_msg` held. -/
def transform_messages_one (msg : JValue) : Except String JValue :=
  match msg with
  | .obj fields =>
      if dictHas fields "content" then
        match transform_tool_use_to_text (dictGetD fields "content" .null) with
        | .error e => .error e
        | .ok c => .ok (.obj (dictSet fields "content" c))
      else .ok (.obj fields)
  | .arr xs =>
      if listHasContentStr xs then .error "TypeError: list indices must be integers"
      else .ok (.arr xs)
  | _ => .error "AttributeError: no attribute copy"

/-- Embeds `transform_messages` (src/app.py lines 35-43). -/
def transform_messages (messages : List JValue) : Except String (List JValue) :=
  mapExcept transform_messages_one messages

/-- One iteration of the inner block loop of `transform_message_to_openai`
(src/app.py lines 51-66), acting on the `new_content` and `tool_calls`
accumulators.  `item['type']` raises `KeyError` when the key is absent; a
`text` block appends its raw `text` value (`KeyError` when absent); a
`tool_use` block appends the OpenAI `tool_calls` entry with
`arguments = json.dumps(item['input'])`; any other typed block appends
`json.dumps(item)`; non-dict items are skipped (no `else` branch). -/
def tmoItem (item : JValue) (nc tc : List JValue) :
    Except String (List JValue × List JValue) :=
  match item with
  | .obj fields =>
      match dictGet fields "type" with
      | none => .error "KeyError: type"
      | some t =>
          match t with
          | .str s =>
              if s = "text" then
                match dictGet fields "text" with
                | none => .error "KeyError: text"
                | some tx => .ok (nc ++ [tx], tc)
              else if s = "tool_use" then
                match dictGet fields "id" with
                | none => .error "KeyError: id"
                | some idv =>
                    match dictGet fields "name" with
                    | none => .error "KeyError: name"
                    | some namev =>
                        match dictGet fields "input" with
                        | none => .error "KeyError: input"
                        | some inputv =>
                            .ok (nc, tc ++ [.obj [("id", idv), ("type", .str "function"),
                              ("function", .obj [("name", namev),
                                ("arguments", .str (jsonDumps inputv))])]])
              else .ok (nc ++ [.str (jsonDumps item)], tc)
          | _ => .ok (nc ++ [.str (jsonDumps item)], tc)
  | _ => .ok (nc, tc)

/-- The inner `for item in msg['content']` loop of
`transform_message_to_openai`: threads the accumulators and, crucially, the
loop variable `item`, which stays bound after the loop ends (Python scoping)
and leaks into later iterations of the outer loop. -/
def tmoItems (itemVar : Option JValue) (nc tc : List JValue) :
    List JValue → Except String (List JValue × List JValue × Option JValue)
  | [] => .ok (nc, tc, itemVar)
  | item :: rest =>
      match tmoItem item nc tc with
      | .error e => .error e
      | .ok (nc', tc') => tmoItems (some item) nc' tc' rest

/-- One iteration of the outer loop of `transform_message_to_openai`
(src/app.py lines 47-73).  When `msg.get('content')` is a list the message is
rebuilt in OpenAI shape; otherwise the code hits the `else` branch
`transformed.append(str(item))`, which reads the stale inner-loop variable
`item` — a `NameError` when no list-shaped message came before. -/
def tmoMsg (itemVar : Option JValue) (msg : JValue) :
    Except String (JValue × Option JValue) :=
  match msg with
  | .obj fields =>
      match dictGetD fields "content" .null with
      | .arr items =>
          match tmoItems itemVar [] [] items with
          | .error e => .error e
          | .ok (nc, tc, itemVar') =>
              match dictGet fields "role" with
              | none => .error "KeyError: role"
              | some role =>
                  match pyJoinVals "\n" nc with
                  | .error e => .error e
                  | .ok joined =>
                      match tc with
                      | [] => .ok (.obj [("role", role), ("content", .str joined)], itemVar')
                      | _ => .ok (.obj [("role", role), ("content", .str joined),
                               ("tool_calls", .arr tc)], itemVar')
      | _ =>
          match itemVar with
          | none => .error "NameError: name item is not defined"
          | some v => .ok (.str (pyStr v), itemVar)
  | _ => .error "AttributeError: no attribute get"

/-- The outer loop of `transform_message_to_openai`, threading the leaked
`item` variable. -/
def tmoGo (itemVar : Option JValue) : List JValue → Except String (List JValue)
  | [] => .ok []
  | msg :: rest =>
      match tmoMsg itemVar msg with
      | .error e => .error e
      | .ok (res, itemVar') => (tmoGo itemVar' rest).map (fun others => res :: others)

/-- Embeds `transform_message_to_openai` (src/app.py lines 45-75). -/
def transform_message_to_openai (messages : List JValue) : Except String (List JValue) :=
  tmoGo none messages

/-- Embeds `transform_tool_choice` (src/app.py lines 78-89). -/
def transform_tool_choice : JValue → JValue
  | .null => .null
  | .str s => .str s
  | .obj fields =>
      match dictGetD fields "type" .null with
      | .str t =>
          if t = "none" ∨ t = "auto" ∨ t = "required" then .str t else .str "auto"
      | _ => .str "auto"
  | _ => .str "auto"

/-- Schema normalization at the end of `transform_tools` (src/app.py lines
125-130): a non-dict schema (including the `None` left by a shape that carried
no schema) is replaced by `{'type': 'object', 'properties': {}}`; a dict
schema gets `type` and then `properties` injected when absent. -/
def fixSchema (schema : JValue) : JValue :=
  match schema with
  | .obj fields =>
      let fields := if dictHas fields "type" then fields else dictSet fields "type" (.str "object")
      let fields :=
        if dictHas fields "properties" then fields else dictSet fields "properties" (.obj [])
      .obj fields
  | _ => .obj [("type", .str "object"), ("properties", .obj [])]

/-- The canonical tool built by `transform_tools` (src/app.py lines 98-139):
`{'type': 'function', 'function': {'name': …, 'description': …,
'parameters': fixSchema …}}` in that insertion order. -/
def mkFunctionTool (name desc schema : JValue) : JValue :=
  .obj [("type", .str "function"),
        ("function", .obj [("name", name), ("description", desc), ("parameters", fixSchema schema)])]

/-- One iteration of `transform_tools` (src/app.py lines 96-142).  Shape
dispatch is by key presence in priority order `function` → `input_schema` →
`parameters` → `name`/`description` → none; a non-dict entry passes through.
When `tool['function']` exists but is not a dict, `func.get(...)` raises
`AttributeError`. -/
def transform_one_tool (tool : JValue) : Except String JValue :=
  match tool with
  | .obj fields =>
      if dictHas fields "function" then
        match dictGetD fields "function" .null with
        | .obj funcFields =>
            .ok (mkFunctionTool (dictGetD funcFields "name" (.str "unknown_function"))
              (dictGetD funcFields "description" (.str ""))
              (pyOr (dictGetD funcFields "parameters" .null)
                    (dictGetD funcFields "input_schema" .null)))
        | _ => .error "AttributeError: no attribute get"
      else if dictHas fields "input_schema" then
        .ok (mkFunctionTool (dictGetD fields "name" (.str "unknown_function"))
          (dictGetD fields "description" (.str "")) (dictGetD fields "input_schema" .null))
      else if dictHas fields "parameters" then
        .ok (mkFunctionTool (dictGetD fields "name" (.str "unknown_function"))
          (dictGetD fields "description" (.str "")) (dictGetD fields "parameters" .null))
      else if dictHas fields "name" || dictHas fields "description" then
        .ok (mkFunctionTool (dictGetD fields "name" (.str "unknown_function"))
          (dictGetD fields "description" (.str ""))
          (if dictHas fields "custom" then
            match dictGetD fields "custom" .null with
            | .obj customFields => dictGetD customFields "input_schema" .null
            | _ => .null
          else .null))
      else
        .ok (mkFunctionTool (.str "unknown_function") (.str "") .null)
  | _ => .ok tool

/-- Embeds `transform_tools` (src/app.py lines 91-143); `if not tools:`
returns a falsy (empty) list unchanged. -/
def transform_tools (tools : List JValue) : Except String (List JValue) :=
  match tools with
  | [] => .ok []
  | _ => mapExcept transform_one_tool tools

/-- Python `str.strip()` whitespace: space, tab, newline, carriage return,
vertical tab, form feed. -/
def isPyWs (c : Char) : Bool :=
  c = ' ' || c = '\t' || c = '\n' || c = '\r' || c.toNat = 11 || c.toNat = 12

/-- Strip leading and trailing Python whitespace from a character list. -/
def pyStripChars (l : List Char) : List Char :=
  ((l.dropWhile isPyWs).reverse.dropWhile isPyWs).reverse

/-- Python `s.strip()`. -/
def pyStripString (s : String) : String := String.mk (pyStripChars s.data)

/-- Exponent suffix of a Python float literal (after the `e`/`E`): an
optional sign and a non-empty digit run that must end the literal. -/
def parseExpPart (l : List Char) : Option Int :=
  match l with
  | '+' :: rest => if rest ≠ [] ∧ rest.all Char.isDigit then some (digitsToNat rest) else none
  | '-' :: rest => if rest ≠ [] ∧ rest.all Char.isDigit then some (-(digitsToNat rest : Int)) else none
  | rest => if rest ≠ [] ∧ rest.all Char.isDigit then some (digitsToNat rest) else none

/-- Apply a decimal exponent to a mantissa/fraction-length pair:
`(mant / 10 ^ frac) * 10 ^ ex` re-expressed with a non-negative fraction
length. -/
def applyExp (mant : Int) (frac : Nat) (ex : Int) : Int × Nat :=
  if (frac : Int) ≤ ex then (mant * 10 ^ (ex - frac).toNat, 0)
  else (mant, ((frac : Int) - ex).toNat)

/-- An unsigned Python float literal: `digits`, `digits.digits`, `digits.`,
`.digits`, each with an optional exponent; at least one digit overall.
Returns the exact decimal value as mantissa and fraction length. -/
def parseUnsignedFloat (l : List Char) : Option (Int × Nat) :=
  let ds := l.takeWhile Char.isDigit
  match l.dropWhile Char.isDigit with
  | '.' :: rest2 =>
      let fs := rest2.takeWhile Char.isDigit
      if ds = [] ∧ fs = [] then none
      else
        let mant : Int := digitsToNat ds * 10 ^ fs.length + digitsToNat fs
        match rest2.dropWhile Char.isDigit with
        | [] => some (mant, fs.length)
        | 'e' :: rest4 => (parseExpPart rest4).map (applyExp mant fs.length)
        | 'E' :: rest4 => (parseExpPart rest4).map (applyExp mant fs.length)
        | _ => none
  | [] => if ds = [] then none else some (digitsToNat ds, 0)
  | 'e' :: rest4 =>
      if ds = [] then none else (parseExpPart rest4).map (applyExp (digitsToNat ds) 0)
  | 'E' :: rest4 =>
      if ds = [] then none else (parseExpPart rest4).map (applyExp (digitsToNat ds) 0)
  | _ => none

/-- What CPython `float(s)` produces from a string: the exact decimal value
of a finite literal, an infinity from the `inf`/`infinity` names, or a NaN
from the `nan` name.  A finite literal is carried exactly; whether CPython's
binary double for it is ±infinity is judged against `floatOverflowBound`
where the value is consumed. -/
inductive PyFloat where
  | finite (mant : Int) (exp : Nat)
  | inf (neg : Bool)
  | nan

/-- PEP 515 digit grouping as `float()` accepts it: every underscore must
sit between two digits (`1_0` parses as `10.0`; `_1`, `1_`, `1__0`, `1_.5`,
`1e_5` all raise `ValueError`). -/
def underscoresOk : List Char → Bool
  | a :: '_' :: b :: rest => a.isDigit && b.isDigit && underscoresOk (b :: rest)
  | '_' :: _ => false
  | _ :: rest => underscoresOk rest
  | [] => true

/-- The unsigned body of a Python float literal, after sign removal: the
case-insensitive names `inf`/`infinity` and `nan`, else a decimal literal
with its PEP 515 underscores validated and removed. -/
def pyFloatBody (neg : Bool) (body : List Char) : Option PyFloat :=
  let low := body.map Char.toLower
  if low = "inf".data ∨ low = "infinity".data then some (.inf neg)
  else if low = "nan".data then some .nan
  else if underscoresOk body then
    (parseUnsignedFloat (body.filter (fun c => c != '_'))).map
      (fun p => .finite (if neg then -p.1 else p.1) p.2)
  else none

/-- Python `float(s)` on a string: strips whitespace, takes an optional
sign, then either an `inf`/`infinity`/`nan` name (case-insensitive) or a
decimal literal with optional underscore digit grouping; `none` is the
`ValueError` of an unparseable string. -/
def pyFloatOfChars (l : List Char) : Option PyFloat :=
  match pyStripChars l with
  | '-' :: rest => pyFloatBody true rest
  | '+' :: rest => pyFloatBody false rest
  | rest => pyFloatBody false rest

/-- The least magnitude that CPython `float` conversion rounds to infinity
(raising `OverflowError` from an int argument, yielding `inf` from a decimal
string).  The largest finite double is `(2^53 - 1) * 2^971 = 2^1024 - 2^971`;
the gap up to `2^1024` is `2^971`, and round-to-nearest-even sends the
midpoint `2^1024 - 2^970`, and everything above it, to infinity. -/
def floatOverflowBound : Nat := 2 ^ 1024 - 2 ^ 970

/-- Outcome of Python `int(float(x))` (src/app.py line 157), split by how
the `try` at lines 156-160 sees it: a returned integer, an exception that
`except (ValueError, TypeError)` catches, or an `OverflowError`, which that
`except` does NOT catch and which therefore propagates out of
`validate_max_tokens`. -/
inductive PyCoerce where
  | val (i : Int)
  | caught
  | overflow

/-- Python `int(float(x))`: booleans coerce to 0/1; ints and finite decimal
strings convert and truncate toward zero, except that a magnitude reaching
`floatOverflowBound` makes `float` overflow (uncaught `OverflowError`);
`inf` strings convert to ±infinity, which `int` then rejects with the same
uncaught `OverflowError`; `nan` strings convert but `int(nan)` raises
`ValueError` (caught), as do unparseable strings, and `None`, lists and
dicts raise `TypeError` (caught).  Below the bound the embedding carries
exact decimal values, where CPython first rounds magnitudes above `2^53`
to the nearest binary double (relative error under `2^-52`), which never
changes the sign or the `< 1` comparison made on the result. -/
def pyIntFloat : JValue → PyCoerce
  | .int n => if floatOverflowBound ≤ n.natAbs then .overflow else .val n
  | .fl m e =>
      if floatOverflowBound * 10 ^ e ≤ m.natAbs then .overflow
      else .val (Int.tdiv m (10 ^ e))
  | .bool b => .val (if b then 1 else 0)
  | .str s =>
      match pyFloatOfChars s.data with
      | some (.finite m e) =>
          if floatOverflowBound * 10 ^ e ≤ m.natAbs then .overflow
          else .val (Int.tdiv m (10 ^ e))
      | some (.inf _) => .overflow
      | some .nan => .caught
      | none => .caught
  | _ => .caught

/-- Discriminator: is the value `None`? -/
def jIsNull : JValue → Bool
  | .null => true
  | _ => false

/-- Python `x == 0 or x == ''` as used on `max_tokens` (src/app.py line 152):
`0`, `0.0` and `False` equal `0`; only the empty string equals `''`. -/
def pyEqZeroOrEmptyStr : JValue → Bool
  | .str s => s = ""
  | .int n => n = 0
  | .fl m _ => m = 0
  | .bool b => !b
  | _ => false

/-- Embeds `validate_max_tokens` (src/app.py lines 145-165).  A falsy (empty)
request dict returns immediately untouched; otherwise `max_tokens` — the
`data.get` of line 150, modelled by the repeated `dictGetD` — is forced to a
positive int: absent/`None`, `''`, `== 0`, caught coercion failures, and
results below 1 all become the default `1024`, anything else its truncated
integer.  An overflowing coercion, however, raises an `OverflowError` past
the `except (ValueError, TypeError)` of line 158, modelled as `.error`: the
function performs no assignment before line 157, so the caller's dict is
then exactly the input. -/
def validate_max_tokens (data : List (String × JValue)) :
    Except String (List (String × JValue)) :=
  match data with
  | [] => .ok data
  | _ =>
      if jIsNull (dictGetD data "max_tokens" .null) then
        .ok (dictSet data "max_tokens" (.int 1024))
      else if pyEqZeroOrEmptyStr (dictGetD data "max_tokens" .null) then
        .ok (dictSet data "max_tokens" (.int 1024))
      else
        match pyIntFloat (dictGetD data "max_tokens" .null) with
        | .caught => .ok (dictSet data "max_tokens" (.int 1024))
        | .overflow => .error "OverflowError"
        | .val i =>
            if i < 1 then .ok (dictSet data "max_tokens" (.int 1024))
            else .ok (dictSet data "max_tokens" (.int i))

/-- The request dict as the caller of `validate_max_tokens` (src/app.py
line 200) sees it after the call: the mutated dict on normal return, the
untouched input when the uncaught `OverflowError` propagates. -/
def validate_max_tokens_post (data : List (String × JValue)) :
    List (String × JValue) :=
  match validate_max_tokens data with
  | .ok d => d
  | .error _ => data

/-- The backend's canonical model id (src/app.py line 10). -/
def ORIGINAL_MODEL_ID : String := "anthropic-claude-opus-4.5"

/-- The client-facing alias (src/app.py line 11). -/
def REWROTE_MODEL_ID : String := "do-opus-4.5"

/-- Python `str.replace('--', '-')`: one left-to-right pass replacing each
non-overlapping pair of hyphens by a single hyphen (a run of three hyphens
leaves two behind). -/
def replacePairHyphen : List Char → List Char
  | '-' :: '-' :: rest => '-' :: replacePairHyphen rest
  | c :: rest => c :: replacePairHyphen rest
  | [] => []

/-- Python `str.lower()` (ASCII fragment; the model ids involved are ASCII). -/
def pyLower (s : String) : String := String.mk (s.data.map Char.toLower)

/-- The model-id normalization of src/app.py line 188:
`.lower().replace(' ', '-').replace('--', '-')`. -/
def normalizeModelId (s : String) : String :=
  String.mk (replacePairHyphen ((pyLower s).data.map (fun c => if c = ' ' then '-' else c)))

/-- Embeds the inbound model rewrite (src/app.py lines 186-191): when the
request dict and its `model` are truthy and `str(model)` normalizes to the
normalized alias, the model is replaced by the canonical backend id. -/
def rewrite_inbound_model (data : List (String × JValue)) : List (String × JValue) :=
  match data with
  | [] => data
  | _ =>
      if pyTruthy (dictGetD data "model" .null) then
        if normalizeModelId (pyStr (dictGetD data "model" .null))
            = normalizeModelId REWROTE_MODEL_ID then
          dictSet data "model" (.str ORIGINAL_MODEL_ID)
        else data
      else data

/-- Modelled from the spec's words "collapsing consecutive hyphens": every
maximal run of hyphens becomes one hyphen.  Defined only to compare the
spec's described normalization with the source's single-pass
`replace('--', '-')`. -/
def collapseRunsAux : Char → List Char → List Char
  | _, [] => []
  | prev, c :: rest =>
      if prev = '-' ∧ c = '-' then collapseRunsAux prev rest
      else c :: collapseRunsAux c rest

/-- Collapse every run of consecutive hyphens to a single hyphen. -/
def collapseHyphenRuns : List Char → List Char
  | [] => []
  | c :: rest => c :: collapseRunsAux c rest

/-- Modelled from the spec: the claimed normalization (lowercase,
spaces→hyphens, collapse consecutive hyphen runs). -/
def specNormalizeModelId (s : String) : String :=
  String.mk (collapseHyphenRuns ((pyLower s).data.map (fun c => if c = ' ' then '-' else c)))

/-- Embeds the empty-200-body fault check (src/app.py lines 208-213): the
decision whether a non-streamed backend reply is answered with the fixed
500 `Empty response from provider` payload.  The outer guard tests
`len(response.content or []) == 0` — the byte length of the body, with a
falsy (empty) body replaced by `[]` — and only inside it the text is tested
for emptiness or whitespace-only content. -/
def empty_body_check (stream : Bool) (status : Nat) (body : String) : Bool :=
  if stream = false ∧ status = 200 ∧ (if body = "" then 0 else body.data.length) = 0 then
    if body = "" ∨ pyStripString body = "" then true else false
  else false

/-- Value of one hexadecimal digit character, upper or lower case. -/
def parseHexDigit (c : Char) : Option Nat :=
  if 48 ≤ c.toNat ∧ c.toNat ≤ 57 then some (c.toNat - 48)
  else if 97 ≤ c.toNat ∧ c.toNat ≤ 102 then some (c.toNat - 87)
  else if 65 ≤ c.toNat ∧ c.toNat ≤ 70 then some (c.toNat - 55)
  else none

/-- Prepend a decoded character to a string-parse result. -/
def consMap (c : Char) : Option (List Char × List Char) → Option (List Char × List Char)
  | some (cs, r) => some (c :: cs, r)
  | none => none

/-- Four hex digits of a `\uXXXX` escape (the part after `\u`), as a code
unit value plus the remaining input. -/
def readUEsc : List Char → Option (Nat × List Char)
  | a :: b :: c2 :: d :: l3 =>
      match parseHexDigit a, parseHexDigit b, parseHexDigit c2, parseHexDigit d with
      | some w, some x, some y, some z => some (w * 4096 + x * 256 + y * 16 + z, l3)
      | _, _, _, _ => none
  | _ => none

theorem readUEsc_length (l : List Char) (n : Nat) (rest : List Char)
    (h : readUEsc l = some (n, rest)) : rest.length + 4 = l.length := by
  unfold readUEsc at h
  repeat' split at h
  all_goals simp_all

/-- One backslash escape (the part after the `\`): a named escape, a
`\uXXXX` escape, or a UTF-16 surrogate pair of two `\uXXXX` escapes. -/
def readEsc : List Char → Option (Char × List Char)
  | [] => none
  | e :: l2 =>
      if e = 'u' then
        match readUEsc l2 with
        | some (n, l3) =>
            if 55296 ≤ n ∧ n < 56320 then
              match l3 with
              | s1 :: s2 :: l3' =>
                  if s1 = '\\' ∧ s2 = 'u' then
                    match readUEsc l3' with
                    | some (n2, l4) =>
                        if 56320 ≤ n2 ∧ n2 < 57344 then
                          some (Char.ofNat (65536 + (n - 55296) * 1024 + (n2 - 56320)), l4)
                        else none
                    | none => none
                  else none
              | _ => none
            else some (Char.ofNat n, l3)
        | none => none
      else if e = 'n' then some ('\n', l2)
      else if e = 't' then some ('\t', l2)
      else if e = 'r' then some ('\r', l2)
      else if e = 'b' then some ('\x08', l2)
      else if e = 'f' then some ('\x0c', l2)
      else if e = '"' then some ('"', l2)
      else if e = '\\' then some ('\\', l2)
      else if e = '/' then some ('/', l2)
      else none

theorem readEsc_length (l : List Char) (d : Char) (rest : List Char)
    (h : readEsc l = some (d, rest)) : rest.length < l.length := by
  cases l with
  | nil => exact absurd h (by simp [readEsc])
  | cons e l2 =>
    unfold readEsc at h
    simp only [] at h
    by_cases hu : e = 'u'
    · rw [if_pos hu] at h
      cases hru : readUEsc l2 with
      | none => rw [hru] at h; exact absurd h (by simp)
      | some p =>
        obtain ⟨n, l3⟩ := p
        rw [hru] at h
        simp only [] at h
        have hl3 := readUEsc_length _ _ _ hru
        by_cases hsur : 55296 ≤ n ∧ n < 56320
        · rw [if_pos hsur] at h
          cases l3 with
          | nil => exact absurd h (by simp)
          | cons s1 l3a =>
            cases l3a with
            | nil => exact absurd h (by simp)
            | cons s2 l3' =>
              simp only [] at h
              by_cases hbu : s1 = '\\' ∧ s2 = 'u'
              · rw [if_pos hbu] at h
                cases hru2 : readUEsc l3' with
                | none => rw [hru2] at h; exact absurd h (by simp)
                | some p2 =>
                  obtain ⟨n2, l4⟩ := p2
                  rw [hru2] at h
                  simp only [] at h
                  have hl4 := readUEsc_length _ _ _ hru2
                  by_cases hsur2 : 56320 ≤ n2 ∧ n2 < 57344
                  · rw [if_pos hsur2] at h
                    simp only [Option.some.injEq, Prod.mk.injEq] at h
                    obtain ⟨-, h2⟩ := h
                    subst h2
                    simp only [List.length_cons] at hl3 ⊢
                    omega
                  · rw [if_neg hsur2] at h; exact absurd h (by simp)
              · rw [if_neg hbu] at h; exact absurd h (by simp)
        · rw [if_neg hsur] at h
          simp only [Option.some.injEq, Prod.mk.injEq] at h
          obtain ⟨-, h2⟩ := h
          subst h2
          simp only [List.length_cons]
          omega
    · rw [if_neg hu] at h
      repeat' split at h
      all_goals simp at h
      all_goals obtain ⟨-, h2⟩ := h
      all_goals subst h2
      all_goals simp

/-- One string-body token: a plain character or a backslash escape, with the
remaining input.  The closing quote is not a token. -/
def readTok : List Char → Option (Char × List Char)
  | [] => none
  | c :: l =>
      if c = '"' then none
      else if c = '\\' then readEsc l
      else some (c, l)

/-- Whatever `readTok` consumes is non-empty. -/
theorem readTok_length (l : List Char) (d : Char) (rest : List Char)
    (h : readTok l = some (d, rest)) : rest.length < l.length := by
  unfold readTok at h
  repeat' split at h
  · exact absurd h (by simp)
  · exact absurd h (by simp)
  · exact Nat.lt_succ_of_lt (readEsc_length _ _ _ h)
  · injection h with h'
    injection h' with h1 h2
    subst h2
    simp

set_option linter.unusedVariables false in
/-- JSON string-body reader: consumes tokens up to the closing quote and
returns the decoded characters together with the input after the quote. -/
def unescape : List Char → Option (List Char × List Char)
  | [] => none
  | c :: l =>
      if c = '"' then some ([], l)
      else
        match h : readTok (c :: l) with
        | some (d, rest) => consMap d (unescape rest)
        | none => none
termination_by l => l.length
decreasing_by exact readTok_length _ _ _ h

/-- Negate a parsed number (after a leading `-`). -/
def negJ : JValue → JValue
  | .int n => .int (-n)
  | .fl m e => .fl (-m) e
  | v => v

/-- Unsigned JSON number reader for the grammar `json.dumps` emits: a digit
run, optionally followed by `.` and a fraction digit run. -/
def parseNumAbs (l : List Char) : Option (JValue × List Char) :=
  let ds := l.takeWhile Char.isDigit
  let rest := l.dropWhile Char.isDigit
  if ds = [] then none
  else
    match rest with
    | '.' :: rest2 =>
        let fs := rest2.takeWhile Char.isDigit
        if fs = [] then none
        else some (.fl (digitsToNat ds * 10 ^ fs.length + digitsToNat fs) fs.length,
                   rest2.dropWhile Char.isDigit)
    | _ => some (.int (digitsToNat ds), rest)

mutual

/-- JSON value reader (fuel-indexed) for the canonical output grammar of
`json.dumps`: element separator `", "`, member separator `": "`, no other
interior whitespace. -/
def parseVal : Nat → List Char → Option (JValue × List Char)
  | 0, _ => none
  | _ + 1, [] => none
  | fuel + 1, c :: l =>
      if c = 'n' then
        match l with
        | 'u' :: 'l' :: 'l' :: rest => some (.null, rest)
        | _ => none
      else if c = 't' then
        match l with
        | 'r' :: 'u' :: 'e' :: rest => some (.bool true, rest)
        | _ => none
      else if c = 'f' then
        match l with
        | 'a' :: 'l' :: 's' :: 'e' :: rest => some (.bool false, rest)
        | _ => none
      else if c = '"' then
        match unescape l with
        | some (cs, rest) => some (.str (String.mk cs), rest)
        | none => none
      else if c = '[' then
        match l with
        | ']' :: rest => some (.arr [], rest)
        | _ =>
            match parseElems fuel l with
            | some (vs, rest) => some (.arr vs, rest)
            | none => none
      else if c = '{' then
        match l with
        | '}' :: rest => some (.obj [], rest)
        | _ =>
            match parseFields fuel l with
            | some (fs, rest) => some (.obj fs, rest)
            | none => none
      else if c = '-' then
        match parseNumAbs l with
        | some (v, rest) => some (negJ v, rest)
        | none => none
      else if c.isDigit then parseNumAbs (c :: l)
      else none

/-- Non-empty array tail: values separated by `", "`, closed by `]`. -/
def parseElems : Nat → List Char → Option (List JValue × List Char)
  | 0, _ => none
  | fuel + 1, l =>
      match parseVal fuel l with
      | none => none
      | some (v, rest) =>
          match rest with
          | ',' :: ' ' :: rest2 =>
              match parseElems fuel rest2 with
              | some (vs, rest3) => some (v :: vs, rest3)
              | none => none
          | ']' :: rest2 => some ([v], rest2)
          | _ => none

/-- Non-empty object tail: `"key": value` members separated by `", "`,
closed by `}`. -/
def parseFields : Nat → List Char → Option (List (String × JValue) × List Char)
  | 0, _ => none
  | fuel + 1, l =>
      match l with
      | '"' :: rest =>
          match unescape rest with
          | some (cs, ':' :: ' ' :: rest2) =>
              match parseVal fuel rest2 with
              | none => none
              | some (v, rest3) =>
                  match rest3 with
                  | ',' :: ' ' :: rest4 =>
                      match parseFields fuel rest4 with
                      | some (fs, rest5) => some ((String.mk cs, v) :: fs, rest5)
                      | none => none
                  | '}' :: rest4 => some ([(String.mk cs, v)], rest4)
                  | _ => none
          | _ => none
      | _ => none

end

/-- Model of Python `json.loads` restricted to the canonical grammar
`json.dumps` emits — the only use the claims make of it is deserializing an
`arguments` string that `json.dumps` just produced.  The whole input must be
consumed (up to trailing whitespace). -/
def pyLoads (s : String) : Option JValue :=
  match parseVal (s.length + 1) s.data with
  | some (v, rest) => if rest.all isPyWs then some v else none
  | none => none

mutual

/-- No float occurs in the value.  `json.dumps`/`json.loads` round-trip is
proved on this fragment: reproducing CPython's shortest-round-trip float
printing is IEEE-754 territory outside the shallow embedding. -/
def noFloat : JValue → Bool
  | .fl _ _ => false
  | .arr xs => noFloatList xs
  | .obj fs => noFloatFields fs
  | _ => true
termination_by v => sizeOf v
decreasing_by all_goals (simp_wf; try omega)

/-- `noFloat` over array elements. -/
def noFloatList : List JValue → Bool
  | [] => true
  | x :: xs => noFloat x && noFloatList xs
termination_by xs => sizeOf xs
decreasing_by all_goals (simp_wf; try omega)

/-- `noFloat` over object members. -/
def noFloatFields : List (String × JValue) → Bool
  | [] => true
  | (_, v) :: fs => noFloat v && noFloatFields fs
termination_by fs => sizeOf fs
decreasing_by all_goals (simp_wf; try omega)

end

mutual

/-- Structural size of a value, matching the fuel `parseVal` consumes. -/
def sizeJ : JValue → Nat
  | .arr xs => sizeLs xs + 1
  | .obj fs => sizeFs fs + 1
  | _ => 1
termination_by v => sizeOf v
decreasing_by all_goals (simp_wf; try omega)

/-- Size of array elements. -/
def sizeLs : List JValue → Nat
  | [] => 0
  | x :: xs => sizeJ x + sizeLs xs + 1
termination_by xs => sizeOf xs
decreasing_by all_goals (simp_wf; try omega)

/-- Size of object members. -/
def sizeFs : List (String × JValue) → Nat
  | [] => 0
  | (_, v) :: fs => sizeJ v + sizeFs fs + 1
termination_by fs => sizeOf fs
decreasing_by all_goals (simp_wf; try omega)

end

/-- Character lists after which a number literal may legitimately stop: the
list is exhausted or continues with a terminator that is neither a digit nor
a decimal point. -/
def numStopOk : List Char → Bool
  | [] => true
  | c :: _ => !c.isDigit && c ≠ '.'

theorem sizeJ_pos (v : JValue) : 1 ≤ sizeJ v := by
  cases v <;> simp [sizeJ]

theorem digitChar_isDigit (k : Nat) : (digitChar k).isDigit = true := by
  unfold digitChar
  split <;> decide

theorem digitChar_toNat (k : Nat) (h : k < 10) : (digitChar k).toNat = 48 + k := by
  interval_cases k <;> decide

theorem natDigits_ne_nil (n : Nat) : natDigits n ≠ [] := by
  rw [natDigits]
  split
  · simp
  · simp

theorem natDigits_all_digit (n : Nat) : ∀ c ∈ natDigits n, c.isDigit = true := by
  induction n using Nat.strong_induction_on with
  | _ n ih =>
    rw [natDigits]
    split
    · intro c hc
      simp only [List.mem_singleton] at hc
      subst hc
      exact digitChar_isDigit n
    · intro c hc
      rw [List.mem_append] at hc
      rcases hc with h1 | h1
      · exact ih (n / 10) (Nat.div_lt_self (by omega) (by omega)) c h1
      · simp only [List.mem_singleton] at h1
        subst h1
        exact digitChar_isDigit _

theorem digitsToNat_natDigits (n : Nat) : digitsToNat (natDigits n) = n := by
  induction n using Nat.strong_induction_on with
  | _ n ih =>
    rw [natDigits]
    split
    · next h =>
      simp only [digitsToNat, List.foldl]
      rw [digitChar_toNat n h]
      omega
    · next h =>
      have : digitsToNat (natDigits (n / 10) ++ [digitChar (n % 10)])
          = 10 * digitsToNat (natDigits (n / 10)) + ((digitChar (n % 10)).toNat - 48) := by
        simp [digitsToNat, List.foldl_append]
      rw [this, ih (n / 10) (Nat.div_lt_self (by omega) (by omega)),
        digitChar_toNat (n % 10) (Nat.mod_lt _ (by omega))]
      omega

theorem takeWhile_append_stop (p : Char → Bool) (l rest : List Char)
    (hl : ∀ c ∈ l, p c = true) (hr : ∀ c, rest.head? = some c → p c = false) :
    (l ++ rest).takeWhile p = l ∧ (l ++ rest).dropWhile p = rest := by
  induction l with
  | nil =>
    cases rest with
    | nil => simp
    | cons c cs =>
      have := hr c rfl
      simp [List.takeWhile, List.dropWhile, this]
  | cons c cs ih =>
    have hc := hl c (by simp)
    have := ih (fun d hd => hl d (by simp [hd]))
    simp [List.takeWhile, List.dropWhile, hc, this.1, this.2]

theorem parseNumAbs_natDigits (m : Nat) (rest : List Char) (h : numStopOk rest = true) :
    parseNumAbs (natDigits m ++ rest) = some (.int m, rest) := by
  have hr : ∀ c, rest.head? = some c → c.isDigit = false := by
    intro c hc
    cases rest with
    | nil => simp at hc
    | cons d ds =>
      simp only [List.head?] at hc
      cases hc
      simp only [numStopOk, Bool.and_eq_true, ne_eq] at h
      simpa using h.1
  obtain ⟨ht, hd⟩ := takeWhile_append_stop Char.isDigit _ rest (natDigits_all_digit m) hr
  unfold parseNumAbs
  rw [ht, hd, if_neg (by simpa using natDigits_ne_nil m)]
  split
  · exfalso
    simp [numStopOk] at h
  · rw [digitsToNat_natDigits]

theorem parseVal_null (fuel : Nat) (rest : List Char) :
    parseVal (fuel + 1) ('n' :: 'u' :: 'l' :: 'l' :: rest) = some (.null, rest) := rfl

theorem parseVal_true (fuel : Nat) (rest : List Char) :
    parseVal (fuel + 1) ('t' :: 'r' :: 'u' :: 'e' :: rest) = some (.bool true, rest) := rfl

theorem parseVal_false (fuel : Nat) (rest : List Char) :
    parseVal (fuel + 1) ('f' :: 'a' :: 'l' :: 's' :: 'e' :: rest) = some (.bool false, rest) := rfl

theorem parseVal_minus (fuel : Nat) (l : List Char) :
    parseVal (fuel + 1) ('-' :: l) =
      match parseNumAbs l with
      | some (v, rest) => some (negJ v, rest)
      | none => none := rfl

theorem parseVal_digit (fuel : Nat) (c : Char) (l : List Char) (h : c.isDigit = true) :
    parseVal (fuel + 1) (c :: l) = parseNumAbs (c :: l) := by
  have h1 : c ≠ 'n' := by rintro rfl; exact absurd h (by decide)
  have h2 : c ≠ 't' := by rintro rfl; exact absurd h (by decide)
  have h3 : c ≠ 'f' := by rintro rfl; exact absurd h (by decide)
  have h4 : c ≠ '"' := by rintro rfl; exact absurd h (by decide)
  have h5 : c ≠ '[' := by rintro rfl; exact absurd h (by decide)
  have h6 : c ≠ '{' := by rintro rfl; exact absurd h (by decide)
  have h7 : c ≠ '-' := by rintro rfl; exact absurd h (by decide)
  simp only [parseVal]
  rw [if_neg h1, if_neg h2, if_neg h3, if_neg h4, if_neg h5, if_neg h6, if_neg h7, if_pos h]

theorem parseVal_natDigits (fuel : Nat) (m : Nat) (rest : List Char) (h : numStopOk rest = true) :
    parseVal (fuel + 1) (natDigits m ++ rest) = some (.int m, rest) := by
  obtain ⟨d, ds, hds⟩ := List.exists_cons_of_ne_nil (natDigits_ne_nil m)
  have hd : d.isDigit = true := natDigits_all_digit m d (by rw [hds]; exact List.mem_cons_self _ _)
  rw [hds, List.cons_append, parseVal_digit fuel d _ hd, ← List.cons_append, ← hds,
    parseNumAbs_natDigits m rest h]

theorem parseVal_intChars (fuel : Nat) (n : Int) (rest : List Char) (h : numStopOk rest = true) :
    parseVal (fuel + 1) (intChars n ++ rest) = some (.int n, rest) := by
  unfold intChars
  split
  · next hneg =>
    rw [List.cons_append, parseVal_minus, parseNumAbs_natDigits _ _ h]
    simp only [negJ]
    have : -((n.natAbs : Nat) : Int) = n := by omega
    rw [this]
  · next hpos =>
    rw [parseVal_natDigits _ _ _ h]
    have : ((n.natAbs : Nat) : Int) = n := by omega
    rw [this]

theorem parseHexDigit_hexChar (k : Nat) (h : k < 16) : parseHexDigit (hexChar k) = some k := by
  interval_cases k <;> decide

theorem escapeChar_ne_nil (c : Char) : escapeChar c ≠ [] := by
  unfold escapeChar
  repeat' split
  all_goals simp

theorem unescape_quote (l : List Char) : unescape ('"' :: l) = some ([], l) := by
  rw [unescape.eq_def]
  simp

theorem unescape_tok (c : Char) (l : List Char) (d : Char) (rest : List Char)
    (h : readTok (c :: l) = some (d, rest)) :
    unescape (c :: l) = consMap d (unescape rest) := by
  have hq : c ≠ '"' := by
    rintro rfl
    rw [readTok.eq_def] at h
    simp at h
  rw [unescape.eq_def]
  simp only []
  rw [if_neg hq]
  split
  · next d' rest' heq => rw [h] at heq; injection heq with heq'; injection heq' with e1 e2; rw [e1, e2]
  · next heq => rw [h] at heq; exact absurd heq (by simp)

theorem readUEsc_hex (n : Nat) (l : List Char) (hn : n < 65536) :
    readUEsc (hexChar (n / 4096 % 16) :: hexChar (n / 256 % 16) :: hexChar (n / 16 % 16)
      :: hexChar (n % 16) :: l) = some (n, l) := by
  have e1 := parseHexDigit_hexChar (n / 4096 % 16) (Nat.mod_lt _ (by omega))
  have e2 := parseHexDigit_hexChar (n / 256 % 16) (Nat.mod_lt _ (by omega))
  have e3 := parseHexDigit_hexChar (n / 16 % 16) (Nat.mod_lt _ (by omega))
  have e4 := parseHexDigit_hexChar (n % 16) (Nat.mod_lt _ (by omega))
  unfold readUEsc
  simp only []
  rw [e1, e2, e3, e4]
  simp only [Option.some.injEq, Prod.mk.injEq]
  exact ⟨by omega, trivial⟩

theorem readEsc_u (n : Nat) (l : List Char) (hn : n < 65536) (hs : ¬(55296 ≤ n ∧ n < 56320)) :
    readEsc ('u' :: hexChar (n / 4096 % 16) :: hexChar (n / 256 % 16) :: hexChar (n / 16 % 16)
      :: hexChar (n % 16) :: l) = some (Char.ofNat n, l) := by
  unfold readEsc
  simp only [if_true, readUEsc_hex n l hn, if_neg hs]

theorem readEsc_pair (n1 n2 : Nat) (l : List Char)
    (h1 : 55296 ≤ n1) (h2 : n1 < 56320) (h3 : 56320 ≤ n2) (h4 : n2 < 57344) :
    readEsc ('u' :: hexChar (n1 / 4096 % 16) :: hexChar (n1 / 256 % 16) :: hexChar (n1 / 16 % 16)
        :: hexChar (n1 % 16) :: '\\' :: 'u' :: hexChar (n2 / 4096 % 16) :: hexChar (n2 / 256 % 16)
        :: hexChar (n2 / 16 % 16) :: hexChar (n2 % 16) :: l)
      = some (Char.ofNat (65536 + (n1 - 55296) * 1024 + (n2 - 56320)), l) := by
  unfold readEsc
  simp only [if_true, and_self, readUEsc_hex n1 _ (by omega), readUEsc_hex n2 _ (by omega)]
  rw [if_pos ⟨h1, h2⟩, if_pos ⟨h3, h4⟩]

theorem readTok_backslash (l : List Char) : readTok ('\\' :: l) = readEsc l := rfl

theorem readTok_plain (c : Char) (l : List Char) (hq : c ≠ '"') (hb : c ≠ '\\') :
    readTok (c :: l) = some (c, l) := by
  unfold readTok
  rw [if_neg hq, if_neg hb]

theorem readTok_escapeChar (c : Char) (l : List Char) :
    readTok (escapeChar c ++ l) = some (c, l) := by
  by_cases hq : c = '"'
  · subst hq; rfl
  by_cases hb : c = '\\'
  · subst hb; rfl
  by_cases hn : c = '\n'
  · subst hn; rfl
  by_cases hr : c = '\r'
  · subst hr; rfl
  by_cases ht : c = '\t'
  · subst ht; rfl
  by_cases h8 : c = '\x08'
  · subst h8; rfl
  by_cases h12 : c = '\x0c'
  · subst h12; rfl
  have he : escapeChar c =
      (if c.toNat < 32 ∨ 127 ≤ c.toNat then
        if c.toNat < 65536 then '\\' :: 'u' :: hex4 c.toNat
        else
          ('\\' :: 'u' :: hex4 (55296 + (c.toNat - 65536) / 1024))
            ++ ('\\' :: 'u' :: hex4 (56320 + (c.toNat - 65536) % 1024))
      else [c]) := by
    unfold escapeChar
    rw [if_neg hq, if_neg hb, if_neg hn, if_neg hr, if_neg ht, if_neg h8, if_neg h12]
  rw [he]
  have hval : c.toNat < 55296 ∨ (57343 < c.toNat ∧ c.toNat < 1114112) := c.valid
  by_cases hlow : c.toNat < 32 ∨ 127 ≤ c.toNat
  · rw [if_pos hlow]
    by_cases hbmp : c.toNat < 65536
    · rw [if_pos hbmp]
      simp only [hex4, List.cons_append, List.nil_append]
      rw [readTok_backslash, readEsc_u c.toNat l hbmp (by omega), Char.ofNat_toNat]
    · rw [if_neg hbmp]
      simp only [hex4, List.cons_append, List.nil_append, List.append_assoc]
      rw [readTok_backslash]
      rw [readEsc_pair (55296 + (c.toNat - 65536) / 1024) (56320 + (c.toNat - 65536) % 1024) l
        (by omega) (by omega) (by omega) (by omega)]
      have harith : 65536 + (55296 + (c.toNat - 65536) / 1024 - 55296) * 1024
          + (56320 + (c.toNat - 65536) % 1024 - 56320) = c.toNat := by omega
      rw [harith, Char.ofNat_toNat]
  · rw [if_neg hlow, List.singleton_append, readTok_plain c l hq hb]

theorem unescape_escape_cons (c : Char) (tail : List Char) :
    unescape (escapeChar c ++ tail) = consMap c (unescape tail) := by
  obtain ⟨c0, l0, he⟩ := List.exists_cons_of_ne_nil (escapeChar_ne_nil c)
  have h := readTok_escapeChar c tail
  rw [he, List.cons_append] at h ⊢
  exact unescape_tok c0 (l0 ++ tail) c tail h

theorem unescape_escapeList (s rest : List Char) :
    unescape (escapeList s ++ '"' :: rest) = some (s, rest) := by
  induction s with
  | nil => simpa using unescape_quote rest
  | cons c cs ih =>
    rw [escapeList, List.append_assoc, unescape_escape_cons, ih]
    rfl

theorem parseVal_quote (fuel : Nat) (l : List Char) :
    parseVal (fuel + 1) ('"' :: l) =
      match unescape l with
      | some (cs, rest) => some (.str (String.mk cs), rest)
      | none => none := rfl

theorem parseVal_lbracket (fuel : Nat) (l : List Char) :
    parseVal (fuel + 1) ('[' :: l) =
      match l with
      | ']' :: rest => some (.arr [], rest)
      | _ =>
          match parseElems fuel l with
          | some (vs, rest) => some (.arr vs, rest)
          | none => none := rfl

theorem parseVal_lbrace (fuel : Nat) (l : List Char) :
    parseVal (fuel + 1) ('{' :: l) =
      match l with
      | '}' :: rest => some (.obj [], rest)
      | _ =>
          match parseFields fuel l with
          | some (fs, rest) => some (.obj fs, rest)
          | none => none := rfl

theorem jdump_head_ne_rbracket (v : JValue) (hnf : noFloat v = true) :
    ∃ c t, jdump v = c :: t ∧ c ≠ ']' := by
  match v with
  | .null => exact ⟨'n', ['u', 'l', 'l'], by simp [jdump], by decide⟩
  | .bool true => exact ⟨'t', ['r', 'u', 'e'], by simp [jdump], by decide⟩
  | .bool false => exact ⟨'f', ['a', 'l', 's', 'e'], by simp [jdump], by decide⟩
  | .fl m e => simp [noFloat] at hnf
  | .str s => exact ⟨'"', escapeList s.data ++ ['"'], by simp [jdump], by decide⟩
  | .arr [] => exact ⟨'[', [']'], by simp [jdump], by decide⟩
  | .arr (x :: xs) => exact ⟨'[', jdumpElems x xs ++ [']'], by simp [jdump], by decide⟩
  | .obj [] => exact ⟨'{', ['}'], by simp [jdump], by decide⟩
  | .obj (f :: fs) => exact ⟨'{', jdumpFields f fs ++ ['}'], by simp [jdump], by decide⟩
  | .int n =>
    have hj : jdump (.int n) = intChars n := by simp [jdump]
    rw [hj]
    unfold intChars
    split
    · exact ⟨'-', _, rfl, by decide⟩
    · obtain ⟨d, ds, hds⟩ := List.exists_cons_of_ne_nil (natDigits_ne_nil n.natAbs)
      have hd : d.isDigit = true :=
        natDigits_all_digit _ d (by rw [hds]; exact List.mem_cons_self _ _)
      refine ⟨d, ds, hds, ?_⟩
      rintro rfl
      exact absurd hd (by decide)

theorem noFloat_arr_cons (x : JValue) (xs : List JValue)
    (h : noFloat (JValue.arr (x :: xs)) = true) :
    noFloat x = true ∧ noFloat (JValue.arr xs) = true := by
  rw [noFloat] at h ⊢
  rw [noFloatList] at h
  exact ⟨(Bool.and_eq_true _ _).mp h |>.1, (Bool.and_eq_true _ _).mp h |>.2⟩

theorem noFloat_obj_cons (k : String) (v : JValue) (fs : List (String × JValue))
    (h : noFloat (JValue.obj ((k, v) :: fs)) = true) :
    noFloat v = true ∧ noFloat (JValue.obj fs) = true := by
  rw [noFloat] at h ⊢
  rw [noFloatFields] at h
  exact ⟨(Bool.and_eq_true _ _).mp h |>.1, (Bool.and_eq_true _ _).mp h |>.2⟩

theorem jdumpElems_decomp (x : JValue) (xs : List JValue) :
    jdumpElems x xs = jdump x
      ++ (match xs with | [] => [] | y :: ys => ',' :: ' ' :: jdumpElems y ys) := by
  cases xs <;> simp [jdumpElems]

theorem jdumpFields_head (k : String) (v : JValue) (fs : List (String × JValue)) :
    ∃ X, jdumpFields (k, v) fs = '"' :: X := by
  cases fs with
  | nil => exact ⟨escapeList k.data ++ '"' :: ':' :: ' ' :: jdump v, by simp [jdumpFields]⟩
  | cons f' fs' =>
      exact ⟨escapeList k.data ++ '"' :: ':' :: ' '
        :: (jdump v ++ ',' :: ' ' :: jdumpFields f' fs'), by simp [jdumpFields]⟩

theorem parse_jdump (fuel : Nat) :
    (∀ v rest, noFloat v = true → sizeJ v ≤ fuel → numStopOk rest = true →
      parseVal fuel (jdump v ++ rest) = some (v, rest)) ∧
    (∀ x xs rest, noFloat (JValue.arr (x :: xs)) = true → sizeLs (x :: xs) ≤ fuel →
      parseElems fuel (jdumpElems x xs ++ ']' :: rest) = some (x :: xs, rest)) ∧
    (∀ f fs rest, noFloat (JValue.obj (f :: fs)) = true → sizeFs (f :: fs) ≤ fuel →
      parseFields fuel (jdumpFields f fs ++ '}' :: rest) = some (f :: fs, rest)) := by
  induction fuel with
  | zero =>
    refine ⟨?_, ?_, ?_⟩
    · intro v rest _ hs _
      exact absurd hs (by have := sizeJ_pos v; omega)
    · intro x xs rest _ hs
      rw [sizeLs] at hs
      exact absurd hs (by have := sizeJ_pos x; omega)
    · intro f fs rest _ hs
      obtain ⟨k, v⟩ := f
      rw [sizeFs] at hs
      exact absurd hs (by have := sizeJ_pos v; omega)
  | succ fuel ih =>
    obtain ⟨ihV, ihE, ihF⟩ := ih
    refine ⟨?_, ?_, ?_⟩
    · intro v rest hnf hs hns
      match v with
      | .null =>
        rw [show jdump JValue.null ++ rest = 'n' :: 'u' :: 'l' :: 'l' :: rest by simp [jdump]]
        exact parseVal_null fuel rest
      | .bool true =>
        rw [show jdump (JValue.bool true) ++ rest = 't' :: 'r' :: 'u' :: 'e' :: rest by simp [jdump]]
        exact parseVal_true fuel rest
      | .bool false =>
        rw [show jdump (JValue.bool false) ++ rest
          = 'f' :: 'a' :: 'l' :: 's' :: 'e' :: rest by simp [jdump]]
        exact parseVal_false fuel rest
      | .fl m e => simp [noFloat] at hnf
      | .int n =>
        rw [show jdump (JValue.int n) = intChars n by simp [jdump]]
        exact parseVal_intChars fuel n rest hns
      | .str s =>
        rw [show jdump (JValue.str s) ++ rest
          = '"' :: (escapeList s.data ++ '"' :: rest) by simp [jdump]]
        rw [parseVal_quote, unescape_escapeList]
      | .arr [] =>
        rw [show jdump (JValue.arr []) ++ rest = '[' :: ']' :: rest by simp [jdump]]
        rw [parseVal_lbracket]
        rfl
      | .arr (x :: xs) =>
        rw [show jdump (JValue.arr (x :: xs)) ++ rest
          = '[' :: (jdumpElems x xs ++ ']' :: rest) by simp [jdump]]
        rw [parseVal_lbracket]
        obtain ⟨hnfx, hnfxs⟩ := noFloat_arr_cons x xs hnf
        obtain ⟨c, t, hct, hne⟩ := jdump_head_ne_rbracket x hnfx
        have hsE : sizeLs (x :: xs) ≤ fuel := by
          rw [sizeJ] at hs
          omega
        split
        · next r heq =>
          exfalso
          rw [jdumpElems_decomp, hct] at heq
          simp only [List.cons_append, List.append_assoc, List.cons.injEq] at heq
          exact hne heq.1
        · rw [ihE x xs rest hnf hsE]
      | .obj [] =>
        rw [show jdump (JValue.obj []) ++ rest = '{' :: '}' :: rest by simp [jdump]]
        rw [parseVal_lbrace]
        rfl
      | .obj ((k, v) :: fs) =>
        rw [show jdump (JValue.obj ((k, v) :: fs)) ++ rest
          = '{' :: (jdumpFields (k, v) fs ++ '}' :: rest) by simp [jdump]]
        rw [parseVal_lbrace]
        have hsF : sizeFs ((k, v) :: fs) ≤ fuel := by
          rw [sizeJ] at hs
          omega
        obtain ⟨X, hX⟩ := jdumpFields_head k v fs
        split
        · next r heq =>
          exfalso
          rw [hX] at heq
          simp only [List.cons_append, List.cons.injEq] at heq
          exact absurd heq.1 (by decide)
        · rw [ihF (k, v) fs rest hnf hsF]
    · intro x xs rest hnf hs
      rw [parseElems]
      obtain ⟨hnfx, hnfxs⟩ := noFloat_arr_cons x xs hnf
      rw [sizeLs] at hs
      cases xs with
      | nil =>
        rw [show jdumpElems x [] = jdump x by simp [jdumpElems]]
        rw [ihV x (']' :: rest) hnfx (by omega) (by rfl)]
        rfl
      | cons y ys =>
        rw [show jdumpElems x (y :: ys) ++ ']' :: rest
          = jdump x ++ (',' :: ' ' :: (jdumpElems y ys ++ ']' :: rest)) by
            simp [jdumpElems]]
        have hsx : sizeJ x ≤ fuel := by
          rw [sizeLs] at hs
          have := sizeJ_pos y
          omega
        rw [ihV x _ hnfx hsx (by rfl)]
        simp only []
        have hsE : sizeLs (y :: ys) ≤ fuel := by
          rw [sizeLs] at hs ⊢
          have := sizeJ_pos x
          omega
        rw [ihE y ys rest hnfxs hsE]
    · intro f fs rest hnf hs
      obtain ⟨k, v⟩ := f
      obtain ⟨hnfv, hnffs⟩ := noFloat_obj_cons k v fs hnf
      rw [sizeFs] at hs
      cases fs with
      | nil =>
        rw [show jdumpFields (k, v) [] ++ '}' :: rest
          = '"' :: (escapeList k.data ++ '"' :: (':' :: ' ' :: (jdump v ++ '}' :: rest))) by
            simp [jdumpFields]]
        rw [parseFields]
        rw [unescape_escapeList]
        simp only []
        rw [ihV v _ hnfv (by omega) (by rfl)]
        rfl
      | cons f' fs' =>
        rw [show jdumpFields (k, v) (f' :: fs') ++ '}' :: rest
          = '"' :: (escapeList k.data ++ '"' :: (':' :: ' '
              :: (jdump v ++ (',' :: ' ' :: (jdumpFields f' fs' ++ '}' :: rest))))) by
            simp [jdumpFields]]
        rw [parseFields]
        rw [unescape_escapeList]
        simp only []
        have hsv : sizeJ v ≤ fuel := by
          obtain ⟨k', v'⟩ := f'
          rw [sizeFs] at hs
          have := sizeJ_pos v'
          omega
        rw [ihV v _ hnfv hsv (by rfl)]
        simp only []
        have hsF : sizeFs (f' :: fs') ≤ fuel := by
          have := sizeJ_pos v
          omega
        rw [ihF f' fs' rest hnffs hsF]

theorem sizeOf_jv_pos (v : JValue) : 0 < sizeOf v := by
  cases v <;> simp_arith

theorem sizeOf_jl_pos (xs : List JValue) : 0 < sizeOf xs := by
  cases xs <;> simp_arith

theorem sizeOf_jf_pos (fs : List (String × JValue)) : 0 < sizeOf fs := by
  cases fs <;> simp_arith

theorem sizeOf_jp_pos (f : String × JValue) : 0 < sizeOf f := by
  obtain ⟨k, v⟩ := f
  simp_arith

theorem natDigits_length_pos (n : Nat) : 0 < (natDigits n).length :=
  List.length_pos.mpr (natDigits_ne_nil n)

theorem jdump_length_pos (v : JValue) : 0 < (jdump v).length := by
  match v with
  | .null => simp [jdump]
  | .bool true => simp [jdump]
  | .bool false => simp [jdump]
  | .str s => simp [jdump]
  | .arr [] => simp [jdump]
  | .arr (x :: xs) => simp [jdump]
  | .obj [] => simp [jdump]
  | .obj (f :: fs) => simp [jdump]
  | .int n =>
    rw [show jdump (JValue.int n) = intChars n by simp [jdump]]
    unfold intChars
    split
    · simp
    · exact natDigits_length_pos _
  | .fl m e =>
    rw [show jdump (JValue.fl m e) = floatChars m e by simp [jdump]]
    unfold floatChars
    have h1 := natDigits_length_pos m.natAbs
    have h2 : 0 < (fracChars m.natAbs e).length := by
      unfold fracChars
      simp
    simp only [List.length_append]
    split <;> split <;> simp_all

theorem sizeJ_le_length (n : Nat) :
    (∀ v, sizeOf v ≤ n → sizeJ v ≤ (jdump v).length) ∧
    (∀ x xs, sizeOf x + sizeOf (xs : List JValue) ≤ n →
      sizeLs (x :: xs) ≤ (jdumpElems x xs).length + 1) ∧
    (∀ f fs, sizeOf f + sizeOf (fs : List (String × JValue)) ≤ n →
      sizeFs (f :: fs) ≤ (jdumpFields f fs).length + 1) := by
  induction n with
  | zero =>
    refine ⟨?_, ?_, ?_⟩
    · intro v hv
      exact absurd hv (by have := sizeOf_jv_pos v; omega)
    · intro x xs hv
      exact absurd hv (by have := sizeOf_jv_pos x; have := sizeOf_jl_pos xs; omega)
    · intro f fs hv
      exact absurd hv (by have := sizeOf_jp_pos f; have := sizeOf_jf_pos fs; omega)
  | succ n ih =>
    obtain ⟨ihV, ihE, ihF⟩ := ih
    refine ⟨?_, ?_, ?_⟩
    · intro v hv
      match v with
      | .null =>
        rw [show sizeJ JValue.null = 1 by simp [sizeJ]]
        exact jdump_length_pos .null
      | .bool true =>
        rw [show sizeJ (JValue.bool true) = 1 by simp [sizeJ]]
        exact jdump_length_pos (.bool true)
      | .bool false =>
        rw [show sizeJ (JValue.bool false) = 1 by simp [sizeJ]]
        exact jdump_length_pos (.bool false)
      | .int m =>
        rw [show sizeJ (JValue.int m) = 1 by simp [sizeJ]]
        exact jdump_length_pos (.int m)
      | .fl m e =>
        rw [show sizeJ (JValue.fl m e) = 1 by simp [sizeJ]]
        exact jdump_length_pos (.fl m e)
      | .str s =>
        rw [show sizeJ (JValue.str s) = 1 by simp [sizeJ]]
        exact jdump_length_pos (.str s)
      | .arr [] =>
        rw [sizeJ, sizeLs]
        exact jdump_length_pos (.arr [])
      | .obj [] =>
        rw [sizeJ, sizeFs]
        exact jdump_length_pos (.obj [])
      | .arr (x :: xs) =>
        rw [sizeJ]
        have hx : sizeOf x + sizeOf xs ≤ n := by
          simp at hv
          omega
        have := ihE x xs hx
        rw [show jdump (JValue.arr (x :: xs)) = '[' :: jdumpElems x xs ++ [']'] by simp [jdump]]
        simp only [List.length_cons, List.length_append]
        simp
        omega
      | .obj (f :: fs) =>
        rw [sizeJ]
        have hx : sizeOf f + sizeOf fs ≤ n := by
          simp at hv
          omega
        have := ihF f fs hx
        rw [show jdump (JValue.obj (f :: fs)) = '{' :: jdumpFields f fs ++ ['}'] by simp [jdump]]
        simp only [List.length_cons, List.length_append]
        simp
        omega
    · intro x xs hv
      cases xs with
      | nil =>
        rw [sizeLs, sizeLs, show jdumpElems x [] = jdump x by simp [jdumpElems]]
        have hx : sizeOf x ≤ n := by
          have := sizeOf_jl_pos ([] : List JValue)
          omega
        have := ihV x hx
        omega
      | cons y ys =>
        rw [sizeLs, show jdumpElems x (y :: ys) = jdump x ++ ',' :: ' ' :: jdumpElems y ys by
          simp [jdumpElems]]
        have h1 : sizeOf x ≤ n := by
          have := sizeOf_jl_pos (y :: ys)
          omega
        have h2 : sizeOf y + sizeOf ys ≤ n := by
          have := sizeOf_jv_pos x
          simp at hv
          omega
        have := ihV x h1
        have := ihE y ys h2
        simp only [List.length_append, List.length_cons]
        omega
    · intro f fs hv
      obtain ⟨k, v⟩ := f
      cases fs with
      | nil =>
        rw [sizeFs, sizeFs, show jdumpFields (k, v) []
          = '"' :: escapeList k.data ++ '"' :: ':' :: ' ' :: jdump v by simp [jdumpFields]]
        have hx : sizeOf v ≤ n := by
          have := sizeOf_jf_pos ([] : List (String × JValue))
          simp at hv
          omega
        have := ihV v hx
        simp only [List.length_cons, List.length_append]
        omega
      | cons f' fs' =>
        rw [sizeFs, show jdumpFields (k, v) (f' :: fs')
          = ('"' :: escapeList k.data ++ '"' :: ':' :: ' ' :: jdump v)
              ++ ',' :: ' ' :: jdumpFields f' fs' by simp [jdumpFields]]
        have hx : sizeOf v ≤ n := by
          have := sizeOf_jf_pos (f' :: fs')
          simp at hv
          omega
        have hy : sizeOf f' + sizeOf fs' ≤ n := by
          simp at hv
          omega
        have := ihV v hx
        have := ihF f' fs' hy
        simp only [List.length_cons, List.length_append]
        omega

/-- `json.loads` inverts `json.dumps` on every float-free JSON value. -/
theorem pyLoads_jsonDumps (v : JValue) (hnf : noFloat v = true) :
    pyLoads (jsonDumps v) = some v := by
  unfold pyLoads jsonDumps
  have hlen : (String.mk (jdump v)).length = (jdump v).length := rfl
  have hdata : (String.mk (jdump v)).data = jdump v := rfl
  rw [hlen, hdata]
  have hsz : sizeJ v ≤ (jdump v).length + 1 := by
    have := (sizeJ_le_length (sizeOf v)).1 v (le_refl _)
    omega
  have hp := (parse_jdump ((jdump v).length + 1)).1 v [] hnf hsz rfl
  rw [List.append_nil] at hp
  rw [hp]
  rfl

theorem dictGet_dictSet_self (d : List (String × JValue)) (k : String) (v : JValue) :
    dictGet (dictSet d k v) k = some v := by
  induction d with
  | nil => simp [dictSet, dictGet]
  | cons p rest ih =>
    obtain ⟨k', v'⟩ := p
    rw [dictSet]
    by_cases hk : k' = k
    · rw [if_pos hk, dictGet, if_pos rfl]
    · rw [if_neg hk, dictGet, if_neg hk]
      exact ih

theorem dictGet_dictSet_ne (d : List (String × JValue)) (k k' : String) (v : JValue)
    (h : k ≠ k') : dictGet (dictSet d k' v) k = dictGet d k := by
  have hne : k' ≠ k := fun he => h he.symm
  induction d with
  | nil => simp [dictSet, dictGet, hne]
  | cons p rest ih =>
    obtain ⟨a, b⟩ := p
    by_cases ha : a = k'
    · subst ha
      rw [dictSet, if_pos rfl]
      rw [show dictGet ((a, v) :: rest) k = dictGet rest k by rw [dictGet, if_neg hne]]
      rw [show dictGet ((a, b) :: rest) k = dictGet rest k by rw [dictGet, if_neg hne]]
    · rw [dictSet, if_neg ha, dictGet, dictGet]
      by_cases hak : a = k
      · rw [if_pos hak, if_pos hak]
      · rw [if_neg hak, if_neg hak]
        exact ih

theorem dictSet_eq_self (d : List (String × JValue)) (k : String) (v : JValue)
    (h : dictGet d k = some v) : dictSet d k v = d := by
  induction d with
  | nil => simp [dictGet] at h
  | cons p rest ih =>
    obtain ⟨a, b⟩ := p
    rw [dictGet] at h
    rw [dictSet]
    by_cases ha : a = k
    · rw [if_pos ha]
      rw [if_pos ha] at h
      injection h with h'
      rw [ha, h']
    · rw [if_neg ha]
      rw [if_neg ha] at h
      rw [ih h]

/-- C1: the identity law for plain-string content holds for the text-collapse
strategy (`transform_tool_use_to_text`, and hence `transform_messages`), but
fails for the structured strategy: `transform_message_to_openai` hits its
`else` branch `transformed.append(str(item))`, which reads the never-assigned
inner-loop variable `item` and raises `NameError` on the very first message
with string content. -/
theorem c1_plain_string_content (fields : List (String × JValue)) (s : String)
    (h : dictGet fields "content" = some (.str s)) :
    transform_tool_use_to_text (.str s) = .ok (.str s)
    ∧ transform_messages [.obj fields] = .ok [.obj fields]
    ∧ transform_message_to_openai [.obj [("role", .str "user"), ("content", .str "hi")]]
        = .error "NameError: name item is not defined" := by
  refine ⟨rfl, ?_, rfl⟩
  unfold transform_messages mapExcept transform_messages_one
  simp only []
  rw [show dictHas fields "content" = true by simp [dictHas, h]]
  simp only [if_true]
  rw [show dictGetD fields "content" .null = .str s by simp [dictGetD, h]]
  rw [show transform_tool_use_to_text (.str s) = .ok (.str s) from rfl]
  simp only []
  rw [dictSet_eq_self fields "content" (.str s) h]
  rfl

/-- C1 witness: the theorem applied to the message `{role: user, content: hi}`. -/
theorem c1_plain_string_content_witness :
    dictGet [("role", JValue.str "user"), ("content", JValue.str "hi")] "content"
        = some (.str "hi")
    ∧ (transform_tool_use_to_text (.str "hi") = .ok (.str "hi")
      ∧ transform_messages [.obj [("role", .str "user"), ("content", .str "hi")]]
          = .ok [.obj [("role", .str "user"), ("content", .str "hi")]]
      ∧ transform_message_to_openai [.obj [("role", .str "user"), ("content", .str "hi")]]
          = .error "NameError: name item is not defined") :=
  ⟨rfl, c1_plain_string_content [("role", .str "user"), ("content", .str "hi")] "hi" rfl⟩

/-- C2: `transform_tools` is not total on malformed input: a mapping whose
`function` field is not itself a mapping raises `AttributeError` (the code
calls `.get` on it), exactly the example the claim asserts is safe.
Non-mapping entries do pass through unchanged. -/
theorem c2_transform_tools_function_nondict :
    transform_tools [.obj [("function", .str "hi")]]
        = .error "AttributeError: no attribute get"
    ∧ transform_tools [.str "x"] = .ok [.str "x"] :=
  ⟨rfl, rfl⟩

/-- C3: a mapping block with no recognized `type` is serialized as JSON by the
text-collapse strategy (its part is `json.dumps(block)` and appears among the
joined parts), but the structured strategy raises `KeyError` on a block with
no `type` key at all (`item['type']`). -/
theorem c3_untyped_block (blocks : List JValue) (fields : List (String × JValue))
    (hmem : JValue.obj fields ∈ blocks)
    (hty : ∀ t, dictGetD fields "type" .null = .str t → t ≠ "text" ∧ t ≠ "tool_use") :
    transform_tool_use_to_text (.arr blocks)
        = (pyJoinVals "\n\n" (blocks.map textCollapsePart)).map JValue.str
    ∧ textCollapsePart (.obj fields) = .str (jsonDumps (.obj fields))
    ∧ JValue.str (jsonDumps (.obj fields)) ∈ blocks.map textCollapsePart
    ∧ transform_message_to_openai
        [.obj [("role", .str "user"), ("content", .arr [.obj [("foo", .str "bar")]])]]
        = .error "KeyError: type" := by
  have hpart : textCollapsePart (.obj fields) = .str (jsonDumps (.obj fields)) := by
    unfold textCollapsePart
    simp only []
    cases hdt : dictGetD fields "type" .null with
    | str t =>
      obtain ⟨h1, h2⟩ := hty t hdt
      simp only []
      rw [if_neg h2, if_neg h1]
    | null => rfl
    | bool b => rfl
    | int n => rfl
    | fl m e => rfl
    | arr xs => rfl
    | obj fs => rfl
  refine ⟨rfl, hpart, ?_, rfl⟩
  rw [← hpart]
  exact List.mem_map_of_mem textCollapsePart hmem

/-- C3 witness: the theorem applied to the single-block list `[{foo: bar}]`. -/
theorem c3_untyped_block_witness :
    JValue.obj [("foo", JValue.str "bar")] ∈ [JValue.obj [("foo", JValue.str "bar")]]
    ∧ (transform_tool_use_to_text (.arr [.obj [("foo", .str "bar")]])
        = (pyJoinVals "\n\n" ([JValue.obj [("foo", .str "bar")]].map textCollapsePart)).map
            JValue.str
      ∧ textCollapsePart (.obj [("foo", .str "bar")])
          = .str (jsonDumps (.obj [("foo", .str "bar")]))
      ∧ JValue.str (jsonDumps (.obj [("foo", .str "bar")]))
          ∈ [JValue.obj [("foo", .str "bar")]].map textCollapsePart
      ∧ transform_message_to_openai
          [.obj [("role", .str "user"), ("content", .arr [.obj [("foo", .str "bar")]])]]
          = .error "KeyError: type") :=
  ⟨List.mem_singleton.mpr rfl,
    c3_untyped_block [.obj [("foo", .str "bar")]] [("foo", .str "bar")]
      (List.mem_singleton.mpr rfl)
      (fun t ht => absurd ht (by intro hh; cases hh))⟩

/-- Discriminator: is the value a string? -/
def jIsStr : JValue → Bool
  | .str _ => true
  | _ => false

/-- A mapping tool-choice whose `type` is one of the three recognized
literals. -/
def recognizedToolChoiceObj : JValue → Bool
  | .obj fields =>
      match dictGetD fields "type" .null with
      | .str t => t = "none" || t = "auto" || t = "required"
      | _ => false
  | _ => false

/-- C4 counterexample: the claim includes arbitrary strings among the inputs
that must normalize to `"auto"`, but `transform_tool_choice` returns any
string unchanged: `"banana"` comes back as `"banana"`. -/
theorem c4_counterexample :
    transform_tool_choice (.str "banana") = .str "banana"
    ∧ JValue.str "banana" ≠ JValue.str "auto" := by
  refine ⟨rfl, ?_⟩
  intro h
  injection h with h'
  exact absurd h' (by decide)

/-- C4 (amended): every tool-choice that is neither `None` nor a string nor a
mapping with recognized `type` normalizes to exactly `"auto"`; strings are
returned unchanged and `None` maps to `None`. -/
theorem c4_tool_choice_default (tc : JValue)
    (h1 : jIsNull tc = false) (h2 : jIsStr tc = false)
    (h3 : recognizedToolChoiceObj tc = false) :
    transform_tool_choice tc = .str "auto"
    ∧ (∀ s, transform_tool_choice (.str s) = .str s)
    ∧ transform_tool_choice .null = .null := by
  refine ⟨?_, fun s => rfl, rfl⟩
  match tc with
  | .null => simp [jIsNull] at h1
  | .str s => simp [jIsStr] at h2
  | .bool b => rfl
  | .int n => rfl
  | .fl m e => rfl
  | .arr xs => rfl
  | .obj fields =>
    unfold transform_tool_choice
    simp only []
    unfold recognizedToolChoiceObj at h3
    simp only [] at h3
    cases hdt : dictGetD fields "type" .null with
    | str t =>
      rw [hdt] at h3
      simp only [] at h3
      simp only []
      rw [if_neg]
      intro hc
      rcases hc with hc | hc | hc <;> simp [hc] at h3
    | null => rfl
    | bool b => rfl
    | int n => rfl
    | fl m e => rfl
    | arr xs => rfl
    | obj fs => rfl

/-- C4 witness: the amended theorem applied to the number `5`. -/
theorem c4_tool_choice_default_witness :
    jIsNull (JValue.int 5) = false ∧ jIsStr (JValue.int 5) = false
    ∧ recognizedToolChoiceObj (JValue.int 5) = false
    ∧ (transform_tool_choice (.int 5) = .str "auto"
      ∧ (∀ s, transform_tool_choice (.str s) = .str s)
      ∧ transform_tool_choice .null = .null) :=
  ⟨rfl, rfl, rfl, c4_tool_choice_default (.int 5) rfl rfl rfl⟩

/-- C5: the empty-200-body fault fires exactly on a zero-length body.  A
whitespace-only body (here three spaces) fails the outer
`len(response.content or []) == 0` guard, so the inner whitespace test is
dead code and the 200 reply is relayed rather than turned into the 500
`Empty response from provider`. -/
theorem c5_empty_body_zero_length_only :
    empty_body_check false 200 "   " = false
    ∧ empty_body_check false 200 "" = true
    ∧ (∀ body : String, empty_body_check false 200 body = true ↔ body = "") := by
  refine ⟨rfl, rfl, ?_⟩
  intro body
  constructor
  · intro h
    unfold empty_body_check at h
    by_cases hb : body = ""
    · exact hb
    · rw [if_neg] at h
      · exact absurd h (by decide)
      · intro hc
        obtain ⟨-, -, hlen⟩ := hc
        rw [if_neg hb] at hlen
        have : body.data = [] := List.length_eq_zero.mp hlen
        obtain ⟨data⟩ := body
        simp at this
        simp [this] at hb
  · intro h
    subst h
    rfl

/-- C6: a tool-use block carrying any (float-free) JSON `input` yields a
`tool_calls` entry whose `function.arguments` is the `json.dumps` string of
that input, and `json.loads` of that string gives back exactly the original
input value (round-trip law). -/
theorem c6_arguments_roundtrip (role idv namev inputv : JValue)
    (hnf : noFloat inputv = true) :
    transform_message_to_openai
        [.obj [("role", role),
               ("content", .arr [.obj [("type", .str "tool_use"), ("id", idv),
                 ("name", namev), ("input", inputv)]])]]
      = .ok [.obj [("role", role), ("content", .str ""),
          ("tool_calls", .arr [.obj [("id", idv), ("type", .str "function"),
            ("function", .obj [("name", namev), ("arguments", .str (jsonDumps inputv))])]])]]
    ∧ pyLoads (jsonDumps inputv) = some inputv :=
  ⟨rfl, pyLoads_jsonDumps inputv hnf⟩

/-- C6 witness: the round trip at the concrete block
`{type: tool_use, id: t1, name: search, input: {q: x}}`. -/
theorem c6_arguments_roundtrip_witness :
    noFloat (JValue.obj [("q", JValue.str "x")]) = true
    ∧ (transform_message_to_openai
        [.obj [("role", .str "assistant"),
               ("content", .arr [.obj [("type", .str "tool_use"), ("id", .str "t1"),
                 ("name", .str "search"), ("input", .obj [("q", .str "x")])]])]]
      = .ok [.obj [("role", .str "assistant"), ("content", .str ""),
          ("tool_calls", .arr [.obj [("id", .str "t1"), ("type", .str "function"),
            ("function", .obj [("name", .str "search"),
              ("arguments", .str (jsonDumps (.obj [("q", .str "x")])))])]])]]
      ∧ pyLoads (jsonDumps (.obj [("q", .str "x")])) = some (.obj [("q", .str "x")])) :=
  ⟨by simp [noFloat, noFloatFields],
    c6_arguments_roundtrip (.str "assistant") (.str "t1") (.str "search")
      (.obj [("q", .str "x")]) (by simp [noFloat, noFloatFields])⟩

/-- C7: the four accepted tool-declaration shapes carrying the same logical
name, description and schema object all normalize to the identical canonical
function tool. -/
theorem c7_tool_shape_invariance (name desc : JValue) (schema : List (String × JValue)) :
    transform_tools [.obj [("function", .obj [("name", name), ("description", desc),
        ("parameters", .obj schema)])]]
      = .ok [mkFunctionTool name desc (.obj schema)]
    ∧ transform_tools [.obj [("input_schema", .obj schema), ("name", name),
        ("description", desc)]]
      = .ok [mkFunctionTool name desc (.obj schema)]
    ∧ transform_tools [.obj [("parameters", .obj schema), ("name", name),
        ("description", desc)]]
      = .ok [mkFunctionTool name desc (.obj schema)]
    ∧ transform_tools [.obj [("name", name), ("description", desc),
        ("custom", .obj [("input_schema", .obj schema)])]]
      = .ok [mkFunctionTool name desc (.obj schema)] := by
  cases schema with
  | nil => exact ⟨rfl, rfl, rfl, rfl⟩
  | cons p rest => exact ⟨rfl, rfl, rfl, rfl⟩

set_option maxRecDepth 8192 in
/-- C8 counterexample: the claim quantifies over every request mapping and
promises a positive-integer `max_tokens`, but (i) `if not data: return`
skips the falsy empty dict entirely — after validation it still has no
`max_tokens` field at all — and (ii) `except (ValueError, TypeError)` does
not catch `OverflowError`, so `int(float("inf"))` and `float(10 ** 400)`
raise out of the function, leaving no integer behind. -/
theorem c8_counterexample :
    validate_max_tokens [] = .ok []
    ∧ dictGet ([] : List (String × JValue)) "max_tokens" = none
    ∧ validate_max_tokens [("max_tokens", .str "inf")] = .error "OverflowError"
    ∧ validate_max_tokens [("max_tokens", .int (Int.ofNat (10 ^ 400)))]
        = .error "OverflowError" :=
  ⟨rfl, rfl, rfl, rfl⟩

set_option maxRecDepth 8192 in
/-- C8 (amended): for every non-empty request mapping, `validate_max_tokens`
either returns with a positive-integer `max_tokens` or hits an overflowing
`int(float(...))` coercion, whose uncaught `OverflowError` propagates with
the mapping unmutated; the listed inputs coerce as claimed (`0`, `''`,
`None`/absent, `"abc"`, `-5`, `0.4`, `False` and `"nan"` give `1024`,
`"7.9"` truncates to `7`, `"1_0"` digit-groups to `10`, while `"-Infinity"`
and `"1e400"` raise). -/
theorem c8_max_tokens_positive (data : List (String × JValue)) (hne : data ≠ []) :
    ((∃ d k, validate_max_tokens data = .ok d
        ∧ dictGet d "max_tokens" = some (.int k) ∧ 1 ≤ k)
      ∨ (pyIntFloat (dictGetD data "max_tokens" .null) = .overflow
          ∧ validate_max_tokens data = .error "OverflowError"))
    ∧ validate_max_tokens [("max_tokens", .int 0)] = .ok [("max_tokens", .int 1024)]
    ∧ validate_max_tokens [("max_tokens", .str "")] = .ok [("max_tokens", .int 1024)]
    ∧ validate_max_tokens [("max_tokens", .null)] = .ok [("max_tokens", .int 1024)]
    ∧ validate_max_tokens [("x", .int 7)] = .ok [("x", .int 7), ("max_tokens", .int 1024)]
    ∧ validate_max_tokens [("max_tokens", .str "abc")] = .ok [("max_tokens", .int 1024)]
    ∧ validate_max_tokens [("max_tokens", .int (-5))] = .ok [("max_tokens", .int 1024)]
    ∧ validate_max_tokens [("max_tokens", .fl 4 1)] = .ok [("max_tokens", .int 1024)]
    ∧ validate_max_tokens [("max_tokens", .bool false)] = .ok [("max_tokens", .int 1024)]
    ∧ validate_max_tokens [("max_tokens", .str "7.9")] = .ok [("max_tokens", .int 7)]
    ∧ validate_max_tokens [("max_tokens", .str "nan")] = .ok [("max_tokens", .int 1024)]
    ∧ validate_max_tokens [("max_tokens", .str "1_0")] = .ok [("max_tokens", .int 10)]
    ∧ validate_max_tokens [("max_tokens", .str "-Infinity")] = .error "OverflowError"
    ∧ validate_max_tokens [("max_tokens", .str "1e400")] = .error "OverflowError" := by
  refine ⟨?_, rfl, rfl, rfl, rfl, rfl, rfl, rfl, rfl, rfl, rfl, rfl, rfl, rfl⟩
  match data, hne with
  | p :: rest, _ =>
    unfold validate_max_tokens
    simp only []
    generalize dictGetD (p :: rest) "max_tokens" .null = mt
    split
    · exact Or.inl ⟨_, 1024, rfl, dictGet_dictSet_self _ _ _, by omega⟩
    · split
      · exact Or.inl ⟨_, 1024, rfl, dictGet_dictSet_self _ _ _, by omega⟩
      · cases hco : pyIntFloat mt with
        | caught => exact Or.inl ⟨_, 1024, rfl, dictGet_dictSet_self _ _ _, by omega⟩
        | overflow => exact Or.inr ⟨rfl, rfl⟩
        | val i =>
            simp only []
            split
            · exact Or.inl ⟨_, 1024, rfl, dictGet_dictSet_self _ _ _, by omega⟩
            · next hlt => exact Or.inl ⟨_, i, rfl, dictGet_dictSet_self _ _ _, by omega⟩

/-- C8 witness: the amended theorem applied to `{max_tokens: 0}`. -/
theorem c8_max_tokens_positive_witness :
    ([("max_tokens", JValue.int 0)] : List (String × JValue)) ≠ []
    ∧ ((∃ d k, validate_max_tokens [("max_tokens", .int 0)] = .ok d
          ∧ dictGet d "max_tokens" = some (.int k) ∧ 1 ≤ k)
        ∨ (pyIntFloat (dictGetD [("max_tokens", .int 0)] "max_tokens" .null) = .overflow
            ∧ validate_max_tokens [("max_tokens", .int 0)] = .error "OverflowError")) :=
  ⟨List.cons_ne_nil _ _,
    (c8_max_tokens_positive [("max_tokens", .int 0)] (List.cons_ne_nil _ _)).1⟩

/-- C9 counterexample: the claim describes the normalization as collapsing
runs of consecutive hyphens, but the code's `replace('--', '-')` is a single
pass.  On `"do   opus 4.5"` (three spaces) the spec-described normalization
matches the alias, so the claim demands a rewrite, while the code leaves the
model untouched. -/
theorem c9_counterexample :
    specNormalizeModelId "do   opus 4.5" = specNormalizeModelId REWROTE_MODEL_ID
    ∧ normalizeModelId "do   opus 4.5" ≠ normalizeModelId REWROTE_MODEL_ID
    ∧ rewrite_inbound_model [("model", .str "do   opus 4.5")]
        = [("model", .str "do   opus 4.5")] := by
  refine ⟨rfl, ?_, rfl⟩
  intro h
  have : normalizeModelId "do   opus 4.5" = "do-opus-4.5" := h
  exact absurd this (by decide)

/-- C9 (amended): the inbound rewrite triggers exactly when the single-pass
normalization (lowercase, spaces to hyphens, one pass of `--`→`-`) of the
model equals the normalized alias; `"Do-Opus-4.5"` and `"do  opus 4.5"` are
rewritten to the canonical backend id, a non-matching model is untouched. -/
theorem c9_inbound_model_rewrite (s : String) (d : List (String × JValue))
    (hne : d ≠ []) (hm : dictGet d "model" = some (.str s)) (hs : s ≠ "") :
    rewrite_inbound_model d =
      (if normalizeModelId s = normalizeModelId REWROTE_MODEL_ID
       then dictSet d "model" (.str ORIGINAL_MODEL_ID) else d)
    ∧ rewrite_inbound_model [("model", .str "Do-Opus-4.5")]
        = [("model", .str ORIGINAL_MODEL_ID)]
    ∧ rewrite_inbound_model [("model", .str "do  opus 4.5")]
        = [("model", .str ORIGINAL_MODEL_ID)]
    ∧ rewrite_inbound_model [("model", .str "gpt-4")] = [("model", .str "gpt-4")] := by
  refine ⟨?_, rfl, rfl, rfl⟩
  unfold rewrite_inbound_model
  match d, hne with
  | p :: rest, _ =>
    simp only []
    rw [show dictGetD (p :: rest) "model" .null = .str s by simp [dictGetD, hm]]
    rw [show pyTruthy (.str s) = true by simp [pyTruthy, hs]]
    rw [if_pos rfl]
    rw [show pyStr (.str s) = s from rfl]

/-- C9 witness: the amended theorem applied to `{model: Do-Opus-4.5}`. -/
theorem c9_inbound_model_rewrite_witness :
    ([("model", JValue.str "Do-Opus-4.5")] : List (String × JValue)) ≠ []
    ∧ dictGet [("model", JValue.str "Do-Opus-4.5")] "model" = some (.str "Do-Opus-4.5")
    ∧ ("Do-Opus-4.5" : String) ≠ ""
    ∧ rewrite_inbound_model [("model", .str "Do-Opus-4.5")] =
        (if normalizeModelId "Do-Opus-4.5" = normalizeModelId REWROTE_MODEL_ID
         then dictSet [("model", .str "Do-Opus-4.5")] "model" (.str ORIGINAL_MODEL_ID)
         else [("model", .str "Do-Opus-4.5")]) :=
  ⟨List.cons_ne_nil _ _, rfl, by decide,
    (c9_inbound_model_rewrite "Do-Opus-4.5" [("model", .str "Do-Opus-4.5")]
      (List.cons_ne_nil _ _) rfl (by decide)).1⟩

/-- Every normal return of `validate_max_tokens` is either the input dict
itself (the empty-dict early return) or the input with a single `max_tokens`
assignment — the only mutation the function ever performs. -/
theorem validate_ok_shape (data d : List (String × JValue))
    (h : validate_max_tokens data = .ok d) :
    d = data ∨ ∃ i : Int, d = dictSet data "max_tokens" (.int i) := by
  cases data with
  | nil =>
      unfold validate_max_tokens at h
      exact Or.inl (Except.ok.inj h).symm
  | cons p rest =>
      unfold validate_max_tokens at h
      simp only [] at h
      split at h
      · exact Or.inr ⟨1024, (Except.ok.inj h).symm⟩
      · split at h
        · exact Or.inr ⟨1024, (Except.ok.inj h).symm⟩
        · split at h
          · exact Or.inr ⟨1024, (Except.ok.inj h).symm⟩
          · exact Except.noConfusion h
          · split at h
            · exact Or.inr ⟨1024, (Except.ok.inj h).symm⟩
            · exact Or.inr ⟨_, (Except.ok.inj h).symm⟩

/-- C10: `validate_max_tokens` only ever touches the `max_tokens` key:
whether it returns normally or propagates the uncaught `OverflowError`
(leaving the caller's dict exactly the input), every other key keeps
exactly its value. -/
theorem c10_validate_max_tokens_frame (data : List (String × JValue)) (k : String)
    (hk : k ≠ "max_tokens") :
    dictGet (validate_max_tokens_post data) k = dictGet data k := by
  unfold validate_max_tokens_post
  cases h : validate_max_tokens data with
  | error e => rfl
  | ok d =>
      simp only []
      rcases validate_ok_shape data d h with h1 | ⟨i, h1⟩
      · rw [h1]
      · rw [h1]; exact dictGet_dictSet_ne _ _ _ _ hk

/-- C10 witness: the frame property at `{model: m, max_tokens: 0}` and key
`model`. -/
theorem c10_validate_max_tokens_frame_witness :
    ("model" : String) ≠ "max_tokens"
    ∧ dictGet (validate_max_tokens_post [("model", .str "m"), ("max_tokens", .int 0)]) "model"
        = dictGet [("model", JValue.str "m"), ("max_tokens", JValue.int 0)] "model" :=
  ⟨by decide,
    c10_validate_max_tokens_frame [("model", .str "m"), ("max_tokens", .int 0)] "model"
      (by decide)⟩
